import Mathlib

/-!
Verification development for the `lox` repository: a scanner
(`src/lox/src/scanner.rs`), a span model (`src/lox/src/span.rs`) and a
recursive-descent expression parser (`src/lox/src/parser.rs`).

The Rust code is shallowly embedded: every Rust function is translated to an
executable Lean function over explicit state records.  `&mut self` methods
become state-passing functions; the lazy scanner iterator and the recursive
parser are given an explicit fuel argument (structural recursion on fuel) so
that every definition is kernel-computable; `none` results signal fuel
exhaustion, and for the byte cursor a `none` additionally models a Rust panic
(documented at those definitions).  Machine integers (`usize`) are modelled as
`Nat`; no arithmetic in the embedded code can overflow a `usize` on inputs of
interest, and Rust's panicking `usize` subtraction only occurs where the code
guarantees the minuend is larger.
-/

set_option maxRecDepth 10000

namespace Lox

/-! ## Span model — src/lox/src/span.rs

Rust: `pub struct Span(usize, usize);` with `.0`/`.1` accessed through
`start()`/`end()`.  The field `end` is a Lean keyword, so the second component
is called `stop`. -/

structure Span where
  start : Nat
  stop : Nat
deriving DecidableEq, Repr

/-- `impl Default for Span { fn default() -> Self { Span(0, 1) } }` -/
def Span.default : Span := ⟨0, 1⟩

/-- `pub fn join(&self, rhs: Span) -> Span { Span::from(self.0..rhs.1) }` -/
def Span.join (a b : Span) : Span := ⟨a.start, b.stop⟩

/-- `pub fn len(&self) -> usize { self.1 - self.0 }` (Nat subtraction;
the Rust `usize` subtraction would panic where Nat truncates, which happens
for no span produced by the embedded code). -/
def Span.len (s : Span) : Nat := s.stop - s.start

/-- `source[span.range()]`: slicing a source buffer at a span.  The buffer is
modelled as a list of characters; for the ASCII sources of this development
byte indices and character indices coincide. -/
def sliceSource (src : List Char) (s : Span) : List Char :=
  (src.drop s.start).take (s.stop - s.start)

/-! ## Tokens — src/lox/src/scanner.rs -/

/-- `pub enum TokenKind { ... }` (`#[derive(Default)]` with `#[default]` on
`Eof`). -/
inductive TokenKind where
  | And | Bang | BangEqual | Class | Comma | CommentLine | Dot | Eof
  | Else | Equal | EqualEqual | False | For | Fun | Greater | GreaterEqual
  | If | Identifier | LeftBrace | LeftParen | Less | LessEqual | Minus
  | Nil | Number | Or | Print | Plus | Return | RightBrace | RightParen
  | Super | Semicolon | Slash | Star | String | This | True | Var | While
  | Whitespace
deriving DecidableEq, Repr

/-- `pub struct Token { pub tipo: TokenKind, pub span: Span }` -/
structure Token where
  tipo : TokenKind
  span : Span
deriving DecidableEq, Repr

/-- `Token::default()` as used by `partial_next_chunk`: the derived default
(`TokenKind::default()` is `Eof`, `Span::default()` is `Span(0, 1)`). -/
def Token.default : Token := ⟨.Eof, Span.default⟩

/-! ## The character cursor — src/lox/src/scanner.rs (`struct Cursor`)

The Rust cursor holds a `&str` byte slice and advances it with
`self.source = &self.source[1..]` — by exactly one byte — while
`self.source.chars().next()` decodes a whole (possibly multi-byte) character.
Slicing a `&str` one byte into a multi-byte character is not a character
boundary and panics.  The source is therefore modelled as a list of decoded
characters each carrying its UTF-8 byte width `w`; advancing past a character
of width `≠ 1` models the panic (result `none`).  The `prev`/`curr` fields of
the Rust cursor are written but never read, and are omitted. -/

structure SChar where
  c : Char
  w : Nat
deriving DecidableEq, Repr

structure Cursor where
  source : List SChar
  orig : List SChar
  pos : Nat
deriving DecidableEq, Repr

/-- `fn peek_nth(&self, nth: usize) -> Option<char>` -/
def Cursor.peekNth (cur : Cursor) (nth : Nat) : Option Char :=
  (cur.source.get? nth).map (·.c)

/-- `fn peek(&self) -> Option<char>` -/
def Cursor.peek (cur : Cursor) : Option Char :=
  cur.peekNth 0

/-- `fn bump(&mut self)`: advance the byte slice by one byte if non-empty.
`none` models the Rust panic of `&self.source[1..]` when the first character
is wider than one byte. -/
def Cursor.bump (cur : Cursor) : Option Cursor :=
  match cur.source with
  | [] => some cur
  | sc :: rest =>
    if sc.w = 1 then some { cur with source := rest, pos := cur.pos + 1 }
    else none

/-- `fn next(&mut self) -> Option<char>`: decode one character and advance the
byte slice by one byte.  The outer `none` models the panic of
`&self.source[1..]` on a multi-byte first character; the inner `none` is the
end of input. -/
def Cursor.next (cur : Cursor) : Option (Option Char × Cursor) :=
  match cur.source with
  | [] => some (none, cur)
  | sc :: rest =>
    if sc.w = 1 then some (some sc.c, { cur with source := rest, pos := cur.pos + 1 })
    else none

/-! ## Scanner — src/lox/src/scanner.rs -/

/-- `pub enum ErrorKind` of the scanner. -/
inductive ScanErrorKind where
  | UnfinishedStr
  | UnknownToken
  | InvalidNumber
deriving DecidableEq, Repr

/-- `pub struct Error { pub span: Span, pub kind: ErrorKind }` of the scanner. -/
structure ScanError where
  span : Span
  kind : ScanErrorKind
deriving DecidableEq, Repr

/-- `pub struct Scanner<'src> { cursor: Cursor<'src>, start: usize }` -/
structure ScanState where
  cursor : Cursor
  start : Nat
deriving DecidableEq, Repr

/-- `Scanner::new` -/
def ScanState.new (src : List SChar) : ScanState :=
  { cursor := { source := src, orig := src, pos := 0 }, start := 0 }

/-- `fn parse_space(&mut self) -> TokenKind`: consume a maximal whitespace
run.  Fuel-indexed loop; one unit of fuel per consumed character. -/
def parseSpace (fuel : Nat) (s : ScanState) : Option (TokenKind × ScanState) :=
  match fuel with
  | 0 => none
  | fuel + 1 =>
    match s.cursor.peek with
    | some c =>
      if c = ' ' ∨ c = '\t' ∨ c = '\r' ∨ c = '\n' then
        match s.cursor.bump with
        | some cur => parseSpace fuel { s with cursor := cur }
        | none => none
      else some (.Whitespace, s)
    | none => some (.Whitespace, s)

/-- `fn bump_while(&mut self, predicate: impl Fn(char) -> bool)`.
`peek().unwrap_or_default()` defaults to `'\0'`. -/
def bumpWhile (fuel : Nat) (pred : Char → Bool) (s : ScanState) : Option ScanState :=
  match fuel with
  | 0 => none
  | fuel + 1 =>
    if pred ((s.cursor.peek).getD (Char.ofNat 0)) then
      match s.cursor.bump with
      | some cur => bumpWhile fuel pred { s with cursor := cur }
      | none => none
    else some s

/-- The identifier/keyword character class of `fn parse_reserved`:
`c.is_ascii_digit() || c.is_ascii_alphabetic() || c == '_'`. -/
def isIdentChar (c : Char) : Bool := c.isDigit || c.isAlpha || c = '_'

/-- The digit/dot run class of `fn parse_number`'s resynchronisation:
`c.is_ascii_digit() || c == '.'`. -/
def isNumRunChar (c : Char) : Bool := c.isDigit || c = '.'

/-- The `nxt_is_num` closure of `fn parse_number`:
`matches!(self.cursor.peek_nth(1), Some('0'..='9'))`. -/
def nxtIsNum (s : ScanState) : Bool :=
  match s.cursor.peekNth 1 with
  | some d => d.isDigit
  | none => false

/-- The keyword table of `fn parse_reserved` (match on
`&self.cursor.orig[self.start..self.cursor.position]`). -/
def keywordLookup (cs : List Char) : Option TokenKind :=
  if cs = "if".toList then some .If
  else if cs = "or".toList then some .Or
  else if cs = "and".toList then some .And
  else if cs = "for".toList then some .For
  else if cs = "fun".toList then some .Fun
  else if cs = "var".toList then some .Var
  else if cs = "nil".toList then some .Nil
  else if cs = "else".toList then some .Else
  else if cs = "true".toList then some .True
  else if cs = "this".toList then some .This
  else if cs = "class".toList then some .Class
  else if cs = "false".toList then some .False
  else if cs = "print".toList then some .Print
  else if cs = "super".toList then some .Super
  else if cs = "while".toList then some .While
  else if cs = "return".toList then some .Return
  else none

/-- `fn parse_reserved(&mut self) -> Option<TokenKind>` -/
def parseReserved (fuel : Nat) (s : ScanState) : Option (Option TokenKind × ScanState) :=
  match bumpWhile fuel isIdentChar s with
  | none => none
  | some s1 =>
    let slice := ((s1.cursor.orig.drop s1.start).take (s1.cursor.pos - s1.start)).map (·.c)
    some (keywordLookup slice, s1)

/-- `fn parse_number(&mut self) -> Option<TokenKind>`: the Rust `loop` with
its local `mut punto` flag, as a fuel-indexed recursion carrying `punto`. -/
def parseNumberLoop (fuel : Nat) (punto : Bool) (s : ScanState) :
    Option (Option TokenKind × ScanState) :=
  match fuel with
  | 0 => none
  | fuel + 1 =>
    match s.cursor.peek with
    | none => some (some .Number, s)
    | some c =>
      if c.isDigit then
        match s.cursor.bump with
        | some cur => parseNumberLoop fuel punto { s with cursor := cur }
        | none => none
      else if c = '.' ∧ nxtIsNum s then
        if punto then
          match bumpWhile (fuel + 1) isNumRunChar s with
          | some s1 => some (none, s1)
          | none => none
        else
          match s.cursor.bump with
          | some cur => parseNumberLoop fuel true { s with cursor := cur }
          | none => none
      else some (some .Number, s)

def parseNumber (fuel : Nat) (s : ScanState) : Option (Option TokenKind × ScanState) :=
  parseNumberLoop fuel false s

/-- `fn parse_string(&mut self) -> Option<TokenKind>` -/
def parseString (fuel : Nat) (s : ScanState) : Option (Option TokenKind × ScanState) :=
  match fuel with
  | 0 => none
  | fuel + 1 =>
    match s.cursor.peek with
    | none => some (none, s)
    | some c =>
      if c = '"' then
        match s.cursor.bump with
        | some cur => some (some .String, { s with cursor := cur })
        | none => none
      else if c = '\n' ∨ c = '\r' then some (none, s)
      else
        match s.cursor.bump with
        | some cur => parseString fuel { s with cursor := cur }
        | none => none

/-- The body of the `on_match('/', ...)` closure:
`while peek().unwrap_or('\n') != '\n' { bump }`. -/
def commentLoop (fuel : Nat) (s : ScanState) : Option ScanState :=
  match fuel with
  | 0 => none
  | fuel + 1 =>
    if ((s.cursor.peek).getD '\n') ≠ '\n' then
      match s.cursor.bump with
      | some cur => commentLoop fuel { s with cursor := cur }
      | none => none
    else some s

/-- `fn on_match(&mut self, char, action)` specialised to a constant-result
action (the `!=`, `==`, `>=`, `<=` lookaheads). -/
def onMatchConst (ch : Char) (k : TokenKind) (s : ScanState) :
    Option (Option (TokenKind × ScanState)) :=
  if s.cursor.peek = some ch then
    match s.cursor.bump with
    | some cur => some (some (k, { s with cursor := cur }))
    | none => none
  else some none

/-- `fn parse_next(&mut self, c: char) -> Result<TokenKind, ErrorKind>` -/
def parseNext (fuel : Nat) (c : Char) (s : ScanState) :
    Option (Except ScanErrorKind TokenKind × ScanState) :=
  if c.isAlpha ∨ c = '_' then
    match parseReserved fuel s with
    | none => none
    | some (k?, s1) => some (.ok (k?.getD .Identifier), s1)
  else if c.isDigit then
    match parseNumber fuel s with
    | none => none
    | some (some k, s1) => some (.ok k, s1)
    | some (none, s1) => some (.error .InvalidNumber, s1)
  else if c = ' ' ∨ c = '\n' ∨ c = '\t' ∨ c = '\r' then
    match parseSpace fuel s with
    | none => none
    | some (k, s1) => some (.ok k, s1)
  else if c = '(' then some (.ok .LeftParen, s)
  else if c = ')' then some (.ok .RightParen, s)
  else if c = '{' then some (.ok .LeftBrace, s)
  else if c = '}' then some (.ok .RightBrace, s)
  else if c = ',' then some (.ok .Comma, s)
  else if c = '.' then some (.ok .Dot, s)
  else if c = '-' then some (.ok .Minus, s)
  else if c = '+' then some (.ok .Plus, s)
  else if c = ';' then some (.ok .Semicolon, s)
  else if c = '*' then some (.ok .Star, s)
  else if c = '!' then
    match onMatchConst '=' .BangEqual s with
    | none => none
    | some (some (k, s1)) => some (.ok k, s1)
    | some none => some (.ok .Bang, s)
  else if c = '=' then
    match onMatchConst '=' .EqualEqual s with
    | none => none
    | some (some (k, s1)) => some (.ok k, s1)
    | some none => some (.ok .Equal, s)
  else if c = '>' then
    match onMatchConst '=' .GreaterEqual s with
    | none => none
    | some (some (k, s1)) => some (.ok k, s1)
    | some none => some (.ok .Greater, s)
  else if c = '<' then
    match onMatchConst '=' .LessEqual s with
    | none => none
    | some (some (k, s1)) => some (.ok k, s1)
    | some none => some (.ok .Less, s)
  else if c = '/' then
    match onMatchConst '/' .CommentLine s with
    | none => none
    | some (some (_, s1)) =>
      match commentLoop fuel s1 with
      | none => none
      | some s2 => some (.ok .CommentLine, s2)
    | some none => some (.ok .Slash, s)
  else if c = '"' then
    match parseString fuel s with
    | none => none
    | some (some k, s1) => some (.ok k, s1)
    | some (none, s1) => some (.error .UnfinishedStr, s1)
  else some (.error .UnknownToken, s)

/-- `<Scanner as Iterator>::next`: one scanner step.  The outer `none` models
a panic (or exhausted fuel in an inner loop); the inner `none` is the end of
the iteration. -/
def scanNext (fuel : Nat) (s : ScanState) :
    Option (Option (Except ScanError Token) × ScanState) :=
  match s.cursor.next with
  | none => none
  | some (none, _) => some (none, s)
  | some (some c, cur) =>
    let s1 : ScanState := { cursor := cur, start := cur.pos - 1 }
    match parseNext fuel c s1 with
    | none => none
    | some (.ok tt, s2) =>
      some (some (.ok ⟨tt, ⟨s2.start, s2.cursor.pos⟩⟩), s2)
    | some (.error e, s2) =>
      some (some (.error ⟨⟨s2.start, s2.cursor.pos⟩, e⟩), s2)

/-- Driving the scanner iterator to exhaustion, collecting every element
(as the repository driver `main.rs` does). -/
def scanAll (fuel : Nat) (s : ScanState) : Option (List (Except ScanError Token)) :=
  match fuel with
  | 0 => none
  | fuel + 1 =>
    match scanNext (fuel + 1) s with
    | none => none
    | some (none, _) => some []
    | some (some r, s1) =>
      match scanAll fuel s1 with
      | none => none
      | some rs => some (r :: rs)

/-- An ASCII source text, character per byte (`w = 1`). -/
def asciiSrc (s : String) : List SChar := s.toList.map (fun c => ⟨c, 1⟩)

/-- The token-stream filter of `main.rs::run`: any lexical error aborts
(`none`); otherwise `Eof`, `Whitespace` and `CommentLine` tokens are dropped. -/
def filterTokens : List (Except ScanError Token) → Option (List Token)
  | [] => some []
  | .error _ :: _ => none
  | .ok t :: rest =>
    match filterTokens rest with
    | none => none
    | some ts =>
      if t.tipo = .Eof ∨ t.tipo = .Whitespace ∨ t.tipo = .CommentLine then some ts
      else some (t :: ts)

/-- Scan an ASCII source and filter the stream as the driver does. -/
def tokensOf (s : String) : Option (List Token) :=
  match scanAll (s.length + 1) (ScanState.new (asciiSrc s)) with
  | none => none
  | some rs => filterTokens rs

/-- An all-ASCII source: every character is in the ASCII range and occupies
one byte (as UTF-8 encodes ASCII). -/
def AsciiSrc (l : List SChar) : Prop := ∀ sc ∈ l, sc.c.toNat < 128 ∧ sc.w = 1

instance (l : List SChar) : Decidable (AsciiSrc l) :=
  inferInstanceAs (Decidable (∀ sc ∈ l, _ ∧ _))


/-! ## AST — as constructed by src/lox/src/parser.rs

The parser builds `ast::Expression { span, item }` with items
`Number(f64)`, `Bool(bool)`, `String(String)`, `Nil`,
`Unary(Box<Expression>, UnaryKind)` and
`Binary(Box<Expression>, Box<Expression>, BinaryKind)`, with
`UnaryKind::{Minus, Bang}` and the ten `BinaryKind` variants the parser
names.  The `f64` value decoded with `str::parse` is modelled as the exact
rational value of the decimal literal; every literal in this development is a
small integer, for which the `f64` decoding is exact, so no floating-point
rounding is observable. -/

inductive UnaryKind where
  | Minus
  | Bang
deriving DecidableEq, Repr

inductive BinaryKind where
  | Plus | Minus | Star | Slash
  | Less | LessEqual | Greater | GreaterEqual
  | BangEqual | EqualEqual
deriving DecidableEq, Repr

mutual
inductive Expression where
  | mk (span : Span) (item : ExpressionItem)
deriving DecidableEq, Repr

inductive ExpressionItem where
  | Number (value : ℚ)
  | String (value : List Char)
  | Bool (value : Bool)
  | Nil
  | Unary (operand : Expression) (kind : UnaryKind)
  | Binary (lhs rhs : Expression) (kind : BinaryKind)
deriving DecidableEq, Repr
end

def Expression.span : Expression → Span
  | .mk s _ => s

def Expression.item : Expression → ExpressionItem
  | .mk _ i => i

/-- `self.source[span.range()].parse::<f64>()`: decode a numeric literal.
For a digit run with an optional single `.` and a fractional digit run the
value is the exact decimal; the Rust code panics (`expect`) on text the
scanner would never produce, a path on which this model returns a junk
value. -/
def decodeNumber (l : List Char) : ℚ :=
  let intPart := l.takeWhile (· ≠ '.')
  let rest := l.dropWhile (· ≠ '.')
  let intVal : Nat := intPart.foldl (fun a c => a * 10 + (c.toNat - 48)) 0
  match rest with
  | [] => (intVal : ℚ)
  | _ :: frac =>
    let fracVal : Nat := frac.foldl (fun a c => a * 10 + (c.toNat - 48)) 0
    (intVal : ℚ) + (fracVal : ℚ) / ((10 : ℚ) ^ frac.length)

/-- `self.source[span.range()].trim_matches('"')`: trim every leading and
trailing quote. -/
def trimQuotes (l : List Char) : List Char :=
  ((l.dropWhile (· = '"')).reverse.dropWhile (· = '"')).reverse

/-! ## Parser — src/lox/src/parser.rs -/

/-- `struct UnexpectedTokenKind` and `pub enum ErrorKind` of the parser,
merged into one inductive (`Vec<TokenKind>` as `List TokenKind`). -/
inductive ParseErrorKind where
  | UnexpectedTokenKind (because : Option TokenKind) (expected : List TokenKind)
      (found : TokenKind)
  | Eof
deriving DecidableEq, Repr

/-- `pub struct Error { pub span: Span, pub kind: ErrorKind }` of the parser. -/
structure ParseError where
  span : Span
  kind : ParseErrorKind
deriving DecidableEq, Repr

/-- The advisory diagnostics the parser prints with `Diagnostic::new(..).err()`,
modelled as structured values instead of formatted text. -/
inductive DiagMsg where
  | unclosedParen
  | expectedUnary (err : ParseError)
  | expectedFactor (err : ParseError)
  | expectedTerm (err : ParseError)
  | expectedComparison (err : ParseError)
deriving DecidableEq, Repr

structure Diag where
  span : Span
  msg : DiagMsg
deriving DecidableEq, Repr

/-- `pub struct Parser<'src>`: the `ruta` path label appears only inside
printed diagnostics and is omitted; emitted diagnostics are accumulated in
`diags` instead of being printed. -/
structure Parser where
  source : List Char
  tokens : List Token
  prev : Token
  cursor : Nat
  diags : List Diag
deriving DecidableEq, Repr

/-- `Parser::new`: cursor 0 and `prev` seeded with
`Token { tipo: Eof, span: Span::from(0..1) }`. -/
def Parser.new (tokens : List Token) (source : List Char) : Parser :=
  { source, tokens, cursor := 0, prev := ⟨.Eof, ⟨0, 1⟩⟩, diags := [] }

/-- `fn bump(&mut self)`: `self.prev = self.tokens[self.cursor]; self.cursor += 1;`.
The Rust indexing panics when `cursor` is out of bounds; every call site first
checks that a token is present, so the fallback arm is unreachable. -/
def Parser.bump (p : Parser) : Parser :=
  match p.tokens[p.cursor]? with
  | some t => { p with prev := t, cursor := p.cursor + 1 }
  | none => { p with cursor := p.cursor + 1 }

/-- `fn bump_n(&mut self, n: usize)` -/
def Parser.bumpN (p : Parser) : Nat → Parser
  | 0 => p
  | n + 1 => (p.bump).bumpN n

/-- `fn lookup_n(&self, n: usize) -> Option<Token>` -/
def Parser.lookupN (p : Parser) (n : Nat) : Option Token :=
  p.tokens[p.cursor + n - 1]?

/-- `fn peek(&self) -> Option<Token>` -/
def Parser.peek (p : Parser) : Option Token :=
  p.lookupN 1

/-- `fn advance(&mut self) -> Option<Token>` (via `next_chunk::<1>` and
`bump_n(1)`). -/
def Parser.advance (p : Parser) : Option Token × Parser :=
  match p.tokens[p.cursor]? with
  | some t => (some t, p.bump)
  | none => (none, p)

/-- `fn partial_next_chunk::<2>`: the two tokens at the cursor, padded with
`Token::default()` past the end. -/
def Parser.chunk2 (p : Parser) : Token × Token :=
  (p.tokens.getD p.cursor Token.default, p.tokens.getD (p.cursor + 1) Token.default)

/-- `Diagnostic::new(self.source, self.ruta, span, msg).err()` -/
def Parser.emit (p : Parser) (span : Span) (msg : DiagMsg) : Parser :=
  { p with diags := p.diags ++ [⟨span, msg⟩] }

/-- The `'l: loop` at the top of `fn unary`: consume identical adjacent
unary-operator pairs (`!!` or `--`). -/
def cancelPairs (fuel : Nat) (p : Parser) : Option Parser :=
  match fuel with
  | 0 => none
  | fuel + 1 =>
    match ((p.chunk2).1.tipo, (p.chunk2).2.tipo) with
    | (.Bang, .Bang) | (.Minus, .Minus) => cancelPairs fuel (p.bumpN 2)
    | _ => some p

instance {ε α : Type} [DecidableEq ε] [DecidableEq α] : DecidableEq (Except ε α) := by
  intro a b
  cases a <;> cases b
  case error.error x y =>
    exact if h : x = y then .isTrue (by rw [h]) else .isFalse (by simpa using h)
  case ok.ok x y =>
    exact if h : x = y then .isTrue (by rw [h]) else .isFalse (by simpa using h)
  case error.ok x y => exact .isFalse (by simp)
  case ok.error x y => exact .isFalse (by simp)

/-- Result of one parser production: `none` is exhausted fuel, otherwise the
Rust `Result<ast::Expression, Error>` paired with the updated parser state. -/
abbrev PResult := Option (Except ParseError Expression × Parser)

mutual

/-- `fn primary(&mut self) -> Result<ast::Expression>` -/
def primary : Nat → Parser → PResult
  | 0, _ => none
  | fuel + 1, p =>
    match p.advance with
    | (some t, p1) =>
      match t.tipo with
      | .Number =>
        some (.ok ⟨t.span, .Number (decodeNumber (sliceSource p1.source t.span))⟩, p1)
      | .True => some (.ok ⟨t.span, .Bool true⟩, p1)
      | .False => some (.ok ⟨t.span, .Bool false⟩, p1)
      | .String =>
        some (.ok ⟨t.span, .String (trimQuotes (sliceSource p1.source t.span))⟩, p1)
      | .Nil => some (.ok ⟨t.span, .Nil⟩, p1)
      | .LeftParen =>
        match comparison fuel p1 with
        | none => none
        | some (.error e, p2) => some (.error e, p2)
        | some (.ok expr, p2) =>
          let tok := (p2.peek).getD t
          if tok.tipo ≠ .RightParen then
            some (.ok expr, p2.emit tok.span .unclosedParen)
          else
            some (.ok expr, p2)
      | x =>
        some (.error ⟨t.span, .UnexpectedTokenKind none
          [.Number, .True, .False, .String, .Nil] x⟩, p1)
    | (none, p1) =>
      some (.error ⟨p1.prev.span, .UnexpectedTokenKind none
        [.Number, .True, .False, .String, .Nil, .LeftParen] .Eof⟩, p1)

/-- `fn unary(&mut self) -> Result<ast::Expression>` -/
def unary : Nat → Parser → PResult
  | 0, _ => none
  | fuel + 1, p =>
    match cancelPairs (fuel + 1) p with
    | none => none
    | some p1 =>
      match p1.peek with
      | some t =>
        if t.tipo = .Minus ∨ t.tipo = .Bang then
          let kind : UnaryKind := if t.tipo = .Minus then .Minus else .Bang
          let p2 := p1.bump
          match unary fuel p2 with
          | none => none
          | some (.ok u, p3) => some (.ok ⟨u.span, .Unary u kind⟩, p3)
          | some (.error e, p3) =>
            primary fuel (p3.emit e.span (.expectedUnary e))
        else primary fuel p1
      | none => primary fuel p1

/-- `fn factor(&mut self) -> Result<ast::Expression>` (header). -/
def factor : Nat → Parser → PResult
  | 0, _ => none
  | fuel + 1, p =>
    match unary fuel p with
    | none => none
    | some (.error e, p1) => some (.error e, p1)
    | some (.ok lhs, p1) => factorLoop fuel lhs p1

/-- The `while` loop of `fn factor`: fold `*`/`/` operators left. -/
def factorLoop : Nat → Expression → Parser → PResult
  | 0, _, _ => none
  | fuel + 1, lhs, p =>
    match p.peek with
    | some t =>
      if t.tipo = .Star ∨ t.tipo = .Slash then
        let kind : BinaryKind := if t.tipo = .Star then .Star else .Slash
        let p1 := p.bump
        match unary fuel p1 with
        | none => none
        | some (.error e, p2) =>
          some (.ok lhs, p2.emit e.span (.expectedUnary e))
        | some (.ok rhs, p2) =>
          factorLoop fuel ⟨lhs.span.join rhs.span, .Binary lhs rhs kind⟩ p2
      else some (.ok lhs, p)
    | none => some (.ok lhs, p)

/-- `fn term(&mut self) -> Result<ast::Expression>` (header). -/
def term : Nat → Parser → PResult
  | 0, _ => none
  | fuel + 1, p =>
    match factor fuel p with
    | none => none
    | some (.error e, p1) => some (.error e, p1)
    | some (.ok lhs, p1) => termLoop fuel lhs p1

/-- The `while` loop of `fn term`: fold `+`/`-` operators left. -/
def termLoop : Nat → Expression → Parser → PResult
  | 0, _, _ => none
  | fuel + 1, lhs, p =>
    match p.peek with
    | some t =>
      if t.tipo = .Plus ∨ t.tipo = .Minus then
        let kind : BinaryKind := if t.tipo = .Minus then .Minus else .Plus
        let p1 := p.bump
        match factor fuel p1 with
        | none => none
        | some (.error e, p2) =>
          some (.ok lhs, p2.emit e.span (.expectedFactor e))
        | some (.ok rhs, p2) =>
          termLoop fuel ⟨lhs.span.join rhs.span, .Binary lhs rhs kind⟩ p2
      else some (.ok lhs, p)
    | none => some (.ok lhs, p)

/-- `fn comparison(&mut self) -> Result<ast::Expression>` (header). -/
def comparison : Nat → Parser → PResult
  | 0, _ => none
  | fuel + 1, p =>
    match term fuel p with
    | none => none
    | some (.error e, p1) => some (.error e, p1)
    | some (.ok lhs, p1) => comparisonLoop fuel lhs p1

/-- The `while` loop of `fn comparison`: fold `<`, `<=`, `>=`, `>` left. -/
def comparisonLoop : Nat → Expression → Parser → PResult
  | 0, _, _ => none
  | fuel + 1, lhs, p =>
    match p.peek with
    | some t =>
      if t.tipo = .Less ∨ t.tipo = .LessEqual ∨ t.tipo = .GreaterEqual ∨
          t.tipo = .Greater then
        let kind : BinaryKind :=
          if t.tipo = .Less then .Less
          else if t.tipo = .LessEqual then .LessEqual
          else if t.tipo = .GreaterEqual then .GreaterEqual
          else .Greater
        let p1 := p.bump
        match term fuel p1 with
        | none => none
        | some (.error e, p2) =>
          some (.ok lhs, p2.emit e.span (.expectedTerm e))
        | some (.ok rhs, p2) =>
          comparisonLoop fuel ⟨lhs.span.join rhs.span, .Binary lhs rhs kind⟩ p2
      else some (.ok lhs, p)
    | none => some (.ok lhs, p)

/-- `fn equality(&mut self) -> Result<ast::Expression>` (header). -/
def equality : Nat → Parser → PResult
  | 0, _ => none
  | fuel + 1, p =>
    match comparison fuel p with
    | none => none
    | some (.error e, p1) => some (.error e, p1)
    | some (.ok lhs, p1) => equalityLoop fuel lhs p1

/-- The `while` loop of `fn equality`: fold `==`/`!=` left. -/
def equalityLoop : Nat → Expression → Parser → PResult
  | 0, _, _ => none
  | fuel + 1, lhs, p =>
    match p.peek with
    | some t =>
      if t.tipo = .EqualEqual ∨ t.tipo = .BangEqual then
        let kind : BinaryKind := if t.tipo = .BangEqual then .BangEqual else .EqualEqual
        let p1 := p.bump
        match comparison fuel p1 with
        | none => none
        | some (.error e, p2) =>
          some (.ok lhs, p2.emit e.span (.expectedComparison e))
        | some (.ok rhs, p2) =>
          equalityLoop fuel ⟨lhs.span.join rhs.span, .Binary lhs rhs kind⟩ p2
      else some (.ok lhs, p)
    | none => some (.ok lhs, p)

end

/-- `pub fn parse(&mut self) -> Result<ast::Expression>`: `self.equality()`. -/
def parse (fuel : Nat) (p : Parser) : PResult :=
  equality fuel p

/-! ## Concrete inputs used by the individual claims -/

/-- The filtered token stream of `"(1 == 2)"`. -/
def toksGroupEq : List Token :=
  [⟨.LeftParen, ⟨0, 1⟩⟩, ⟨.Number, ⟨1, 2⟩⟩, ⟨.EqualEqual, ⟨3, 5⟩⟩,
   ⟨.Number, ⟨6, 7⟩⟩, ⟨.RightParen, ⟨7, 8⟩⟩]

/-- The filtered token stream of `"(4)+5"`. -/
def toksGroupPlus : List Token :=
  [⟨.LeftParen, ⟨0, 1⟩⟩, ⟨.Number, ⟨1, 2⟩⟩, ⟨.RightParen, ⟨2, 3⟩⟩,
   ⟨.Plus, ⟨3, 4⟩⟩, ⟨.Number, ⟨4, 5⟩⟩]

/-- The filtered token stream of `"(4"`. -/
def toksGroupOpen : List Token :=
  [⟨.LeftParen, ⟨0, 1⟩⟩, ⟨.Number, ⟨1, 2⟩⟩]

/-- The filtered token stream of `"1 - 2 - 3"`. -/
def toksSubSub : List Token :=
  [⟨.Number, ⟨0, 1⟩⟩, ⟨.Minus, ⟨2, 3⟩⟩, ⟨.Number, ⟨4, 5⟩⟩,
   ⟨.Minus, ⟨6, 7⟩⟩, ⟨.Number, ⟨8, 9⟩⟩]

/-- The filtered token stream of `"1 + 2 * 3"`. -/
def toksSumMul : List Token :=
  [⟨.Number, ⟨0, 1⟩⟩, ⟨.Plus, ⟨2, 3⟩⟩, ⟨.Number, ⟨4, 5⟩⟩,
   ⟨.Star, ⟨6, 7⟩⟩, ⟨.Number, ⟨8, 9⟩⟩]

/-- The filtered token stream of `"-5"`. -/
def toksNeg : List Token := [⟨.Minus, ⟨0, 1⟩⟩, ⟨.Number, ⟨1, 2⟩⟩]

/-- The filtered token stream of `"1-2"`. -/
def toksOneMinusTwo : List Token :=
  [⟨.Number, ⟨0, 1⟩⟩, ⟨.Minus, ⟨1, 2⟩⟩, ⟨.Number, ⟨2, 3⟩⟩]

/-- A run of `n` `-` tokens followed by the number token of the source
`"--...-5"`. -/
def minusRunToks (n : Nat) : List Token :=
  (List.range n).map (fun i => ⟨.Minus, ⟨i, i + 1⟩⟩) ++ [⟨.Number, ⟨n, n + 1⟩⟩]

def minusRunSrc (n : Nat) : List Char := List.replicate n '-' ++ ['5']

/-- A run of `n` `!` tokens followed by the keyword token of the source
`"!!...!true"`. -/
def bangRunToks (n : Nat) : List Token :=
  (List.range n).map (fun i => ⟨.Bang, ⟨i, i + 1⟩⟩) ++ [⟨.True, ⟨n, n + 4⟩⟩]

def bangRunSrc (n : Nat) : List Char := List.replicate n '!' ++ "true".toList

/-! ## General lemmas about the parser state -/

theorem Parser.peek_def (p : Parser) : p.peek = p.tokens[p.cursor]? := rfl

theorem Parser.bump_of_get (p : Parser) (t : Token) (h : p.tokens[p.cursor]? = some t) :
    p.bump = { p with prev := t, cursor := p.cursor + 1 } := by
  simp [Parser.bump, h]

/-! ## C7 — `Span::join` -/

/-- C7, counterexample: `join` is *not* the smallest covering span (minimum of
the starts to maximum of the ends): it is always `[a.start, b.stop)`, which at
`a = [5,6)`, `b = [0,1)` is `[5,1)` and not `[0,6)`. -/
theorem c7_join_counterexample :
    Span.join ⟨5, 6⟩ ⟨0, 1⟩ = ⟨5, 1⟩ ∧
    (⟨min 5 0, max 6 1⟩ : Span) = ⟨0, 6⟩ ∧
    Span.join ⟨5, 6⟩ ⟨0, 1⟩ ≠ ⟨min 5 0, max 6 1⟩ := by
  decide

/-- C7, amended: `join(a, b)` is the span from `a`'s start to `b`'s end; when
`a` starts no later and ends no later than `b` — the way the parser uses it,
widening a left operand's span to include a later right operand — this is the
smallest span covering both. -/
theorem c7_join_spec (a b : Span) (h1 : a.start ≤ b.start) (h2 : a.stop ≤ b.stop) :
    Span.join a b = ⟨min a.start b.start, max a.stop b.stop⟩ := by
  simp [Span.join, Nat.min_eq_left h1, Nat.max_eq_right h2]

theorem c7_join_spec_witness :
    Span.join ⟨0, 1⟩ ⟨2, 3⟩ = ⟨min 0 2, max 1 3⟩ :=
  c7_join_spec ⟨0, 1⟩ ⟨2, 3⟩ (by decide) (by decide)

/-! ## C4 — `primary` at end of input -/

/-- C4, counterexample: with no token consumed, `primary` at end of input
returns an error whose kind is `UnexpectedTokenKind { found: Eof, .. }` — not
`ErrorKind::Eof` — and whose span is the seeded `Span(0, 1)`, which has width
1, not 0. -/
theorem c4_eof_counterexample :
    primary 1 (Parser.new [] []) =
      some (.error ⟨⟨0, 1⟩, .UnexpectedTokenKind none
        [.Number, .True, .False, .String, .Nil, .LeftParen] .Eof⟩, Parser.new [] []) ∧
    (ParseErrorKind.UnexpectedTokenKind none
        [.Number, .True, .False, .String, .Nil, .LeftParen] .Eof ≠ .Eof) ∧
    Span.len ⟨0, 1⟩ ≠ 0 := by
  decide

/-- C4, amended: when `primary` is called with the cursor at end of input it
returns an error of kind `UnexpectedTokenKind` with `found = Eof` and
`expected = [Number, True, False, String, Nil, LeftParen]`, whose span is the
span of the last consumed token — the seeded default-valued span `[0, 1)` of
width 1 (not a zero-width span) when nothing was consumed. -/
theorem c4_primary_eof (fuel : Nat) (p : Parser) (h : p.tokens[p.cursor]? = none) :
    primary (fuel + 1) p =
      some (.error ⟨p.prev.span, .UnexpectedTokenKind none
        [.Number, .True, .False, .String, .Nil, .LeftParen] .Eof⟩, p) ∧
    ∀ ts src, ((Parser.new ts src).prev.span = ⟨0, 1⟩ ∧ Span.len ⟨0, 1⟩ = 1) := by
  constructor
  · simp [primary, Parser.advance, h]
  · intro ts src
    constructor <;> rfl

theorem c4_primary_eof_witness :
    primary 3 (Parser.new [] ['7']) =
      some (.error ⟨(Parser.new [] ['7']).prev.span,
        .UnexpectedTokenKind none
          [.Number, .True, .False, .String, .Nil, .LeftParen] .Eof⟩,
        Parser.new [] ['7']) := by
  have h := c4_primary_eof 2 (Parser.new [] ['7']) (by decide)
  exact h.1

/-! ## C1 — grouping parses only a `comparison`, not an `equality` -/

/-- C1: on the token stream of `"(1 == 2)"`, `primary` parses the group body
with `comparison`, which stops before `==`; the group therefore yields only
the literal `1`, leaves the cursor on the `==` token, and emits a spurious
"Unclosed (" diagnostic even though the parenthesis is closed — contradicting
the documented `"(" equality ")"` grammar. -/
theorem c1_group_parses_comparison :
    tokensOf "(1 == 2)" = some toksGroupEq ∧
    (primary 30 (Parser.new toksGroupEq "(1 == 2)".toList)).map
        (fun r => (r.1, r.2.cursor, r.2.diags)) =
      some (.ok ⟨⟨1, 2⟩, .Number 1⟩, 2, [⟨⟨3, 5⟩, .unclosedParen⟩]) := by
  decide

/-! ## C9 — malformed number literal -/

/-- C9: scanning `"123.45.6"` produces exactly one element: an
`InvalidNumber` error whose span `[0, 8)` covers the entire malformed
digit/dot run, after which the iteration is already at end of input (the
whole literal was consumed). -/
theorem c9_invalid_number :
    scanAll 9 (ScanState.new (asciiSrc "123.45.6")) =
      some [.error ⟨⟨0, 8⟩, .InvalidNumber⟩] := by
  decide

/-! ## C10 — unclosed-group recovery -/

/-- C10: parsing the token stream of `"(4"` emits exactly one advisory
diagnostic (the unclosed-parenthesis report, anchored to the `(` token) and
still returns `Ok` with the inner expression `4`. -/
theorem c10_group_recovery :
    tokensOf "(4" = some toksGroupOpen ∧
    (parse 30 (Parser.new toksGroupOpen "(4".toList)).map
        (fun r => (r.1, r.2.diags)) =
      some (.ok ⟨⟨1, 2⟩, .Number 4⟩, [⟨⟨0, 1⟩, .unclosedParen⟩]) := by
  decide

/-! ## C2 — grouping never consumes the closing parenthesis -/

/-- C2: whenever `primary` parses a parenthesized group, the state it returns
is exactly the state left by the inner `comparison` call, up to appended
diagnostics: the cursor is never advanced past the group body, so a closing
`)` remains un-consumed.  Concretely, on the token stream of `"(4)+5"` the
top-level parse returns `Ok` with just the literal `4`, the cursor resting on
the `)` at index 2, with no diagnostic — the tokens `+ 5` are never consumed
or reported. -/
theorem c2_group_never_consumes_rparen :
    (∀ (fuel : Nat) (p : Parser) (t : Token) (e : Expression) (p' : Parser),
      p.peek = some t → t.tipo = .LeftParen →
      comparison fuel p.bump = some (.ok e, p') →
      ∃ p2, primary (fuel + 1) p = some (.ok e, p2) ∧ p2.cursor = p'.cursor ∧
        p2.tokens = p'.tokens ∧ p2.prev = p'.prev) ∧
    (tokensOf "(4)+5" = some toksGroupPlus ∧
      (parse 30 (Parser.new toksGroupPlus "(4)+5".toList)).map
          (fun r => (r.1, r.2.cursor, r.2.diags)) =
        some (.ok ⟨⟨1, 2⟩, .Number 4⟩, 2, []) ∧
      toksGroupPlus[2]? = some ⟨.RightParen, ⟨2, 3⟩⟩) := by
  constructor
  · intro fuel p t e p' hp ht hcomp
    rw [Parser.peek_def] at hp
    by_cases hr : (p'.peek.getD t).tipo = .RightParen
    · refine ⟨p', ?_, rfl, rfl, rfl⟩
      simp [primary, Parser.advance, hp, ht, hcomp, hr]
    · refine ⟨p'.emit (p'.peek.getD t).span .unclosedParen, ?_, rfl, rfl, rfl⟩
      simp [primary, Parser.advance, hp, ht, hcomp, hr]
  · exact ⟨by decide, by decide, by decide⟩

theorem c2_group_never_consumes_rparen_witness :
    ∃ p2, primary 30 (Parser.new toksGroupPlus "(4)+5".toList) =
      some (.ok ⟨⟨1, 2⟩, .Number 4⟩, p2) ∧ p2.cursor = 2 := by
  obtain ⟨p2, h, hc, -, -⟩ :=
    c2_group_never_consumes_rparen.1 29 (Parser.new toksGroupPlus "(4)+5".toList)
      ⟨.LeftParen, ⟨0, 1⟩⟩ ⟨⟨1, 2⟩, .Number 4⟩
      ⟨"(4)+5".toList, toksGroupPlus, ⟨.Number, ⟨1, 2⟩⟩, 2, []⟩
      (by decide) (by decide) (by decide)
  exact ⟨p2, h, hc⟩

/-! ## C8 — expression spans -/

/-- Shared lemma: the success path of `fn unary` that applies one unary
operator builds the node `Expression { span: operand.span, item: Unary(..) }`
— the operator token's span is not joined in. -/
theorem unary_applies_op (fuel : Nat) (p p1 : Parser) (t : Token) (u : Expression)
    (p2 : Parser) (hc : cancelPairs (fuel + 1) p = some p1) (hp : p1.peek = some t)
    (ht : t.tipo = .Minus ∨ t.tipo = .Bang)
    (hu : unary fuel p1.bump = some (.ok u, p2)) :
    unary (fuel + 1) p =
      some (.ok ⟨u.span, .Unary u (if t.tipo = .Minus then .Minus else .Bang)⟩, p2) := by
  simp [unary, hc, hp, ht, hu]

/-- C8, counterexample: parsing `"-5"` succeeds with a `Unary` expression
whose span is `[1, 2)` — the span of its operand only.  Its leftmost consumed
token is the `-` at `[0, 1)`, so re-slicing the source at the expression's
span yields `"5"`, which does not extend to the leftmost consumed token: a
unary expression's span does *not* include its operator token. -/
theorem c8_span_counterexample :
    tokensOf "-5" = some toksNeg ∧
    (parse 30 (Parser.new toksNeg "-5".toList)).map (fun r => r.1) =
      some (.ok ⟨⟨1, 2⟩, .Unary ⟨⟨1, 2⟩, .Number 5⟩ .Minus⟩) ∧
    sliceSource "-5".toList ⟨1, 2⟩ = ['5'] ∧
    (⟨1, 2⟩ : Span).start ≠ (⟨0, 1⟩ : Span).start := by
  decide

/-- C8, amended: a binary expression's span is the `join` of its operands'
spans — it re-slices to the text from its leftmost to its rightmost operand
token — but a unary expression's span is exactly its operand's span,
excluding the operator token. -/
theorem c8_spans :
    (∀ (fuel : Nat) (p p1 : Parser) (t : Token) (u : Expression) (p2 : Parser),
      cancelPairs (fuel + 1) p = some p1 → p1.peek = some t →
      (t.tipo = .Minus ∨ t.tipo = .Bang) →
      unary fuel p1.bump = some (.ok u, p2) →
      ∃ k, unary (fuel + 1) p = some (.ok ⟨u.span, .Unary u k⟩, p2)) ∧
    ((parse 30 (Parser.new toksOneMinusTwo "1-2".toList)).map (fun r => r.1) =
      some (.ok ⟨Span.join ⟨0, 1⟩ ⟨2, 3⟩,
        .Binary ⟨⟨0, 1⟩, .Number 1⟩ ⟨⟨2, 3⟩, .Number 2⟩ .Minus⟩) ∧
     sliceSource "1-2".toList (Span.join ⟨0, 1⟩ ⟨2, 3⟩) = "1-2".toList) := by
  refine ⟨fun fuel p p1 t u p2 hc hp ht hu =>
    ⟨_, unary_applies_op fuel p p1 t u p2 hc hp ht hu⟩, by decide, by decide⟩

theorem c8_spans_witness :
    ∃ k, unary 30 (Parser.new toksNeg "-5".toList) =
      some (.ok ⟨(⟨1, 2⟩ : Span), .Unary ⟨⟨1, 2⟩, .Number 5⟩ k⟩,
        ⟨"-5".toList, toksNeg, ⟨.Number, ⟨1, 2⟩⟩, 2, []⟩) :=
  c8_spans.1 29 (Parser.new toksNeg "-5".toList) (Parser.new toksNeg "-5".toList)
    ⟨.Minus, ⟨0, 1⟩⟩ ⟨⟨1, 2⟩, .Number 5⟩
    ⟨"-5".toList, toksNeg, ⟨.Number, ⟨1, 2⟩⟩, 2, []⟩
    (by decide) (by decide) (by decide) (by decide)

/-! ## C5 — left-associativity and precedence -/

/-- C5: `"1 - 2 - 3"` parses to the left-nested
`Binary(Binary(1, 2, Minus), 3, Minus)` and `"1 + 2 * 3"` parses to
`Binary(1, Binary(2, 3, Star), Plus)` (the `ast::BinaryKind` variants the
parser constructs; the spec's names `Sub`, `Sum`, `Mul` for the same
subtraction, addition and multiplication operators). -/
theorem c5_assoc_precedence :
    tokensOf "1 - 2 - 3" = some toksSubSub ∧
    (parse 30 (Parser.new toksSubSub "1 - 2 - 3".toList)).map (fun r => r.1) =
      some (.ok ⟨⟨0, 9⟩, .Binary
        ⟨⟨0, 5⟩, .Binary ⟨⟨0, 1⟩, .Number 1⟩ ⟨⟨4, 5⟩, .Number 2⟩ .Minus⟩
        ⟨⟨8, 9⟩, .Number 3⟩ .Minus⟩) ∧
    tokensOf "1 + 2 * 3" = some toksSumMul ∧
    (parse 30 (Parser.new toksSumMul "1 + 2 * 3".toList)).map (fun r => r.1) =
      some (.ok ⟨⟨0, 9⟩, .Binary ⟨⟨0, 1⟩, .Number 1⟩
        ⟨⟨4, 9⟩, .Binary ⟨⟨4, 5⟩, .Number 2⟩ ⟨⟨8, 9⟩, .Number 3⟩ .Star⟩
        .Plus⟩) := by
  decide

/-! ## C3 — scanner totality on ASCII, panic on multi-byte input -/

/-- `Cursor::bump` on a one-byte first character. -/
theorem bump_ascii_cons (c : Cursor) (sc : SChar) (rest : List SChar)
    (hs : c.source = sc :: rest) (hw : sc.w = 1) :
    c.bump = some { c with source := rest, pos := c.pos + 1 } := by
  simp [Cursor.bump, hs, hw]

/-- `parse_space` succeeds on ASCII input, consuming at most the remaining
source. -/
theorem parseSpace_total : ∀ (fuel : Nat) (s : ScanState),
    AsciiSrc s.cursor.source → s.cursor.source.length < fuel →
    ∃ k s', parseSpace fuel s = some (k, s') ∧ AsciiSrc s'.cursor.source ∧
      s'.cursor.source.length ≤ s.cursor.source.length := by
  intro fuel
  induction fuel with
  | zero => intro s _ h; omega
  | succ fuel ih =>
    intro s hA hl
    match hs : s.cursor.source with
    | [] =>
      refine ⟨.Whitespace, s, ?_, hA, by rw [hs]⟩
      simp [parseSpace, Cursor.peek, Cursor.peekNth, hs]
    | sc :: rest =>
      have hw : sc.w = 1 := (hA sc (by simp [hs])).2
      have hpeek : s.cursor.peek = some sc.c := by simp [Cursor.peek, Cursor.peekNth, hs]
      by_cases hc : sc.c = ' ' ∨ sc.c = '\t' ∨ sc.c = '\r' ∨ sc.c = '\n'
      · have hb := bump_ascii_cons s.cursor sc rest hs hw
        have hA' : AsciiSrc rest := fun x hx => hA x (by simp [hs, hx])
        obtain ⟨k, s', hps, hA2, hle⟩ :=
          ih { s with cursor := { s.cursor with source := rest, pos := s.cursor.pos + 1 } }
            hA' (by simp only []; rw [hs] at hl; simp at hl ⊢; omega)
        refine ⟨k, s', ?_, hA2, ?_⟩
        · simpa [parseSpace, hpeek, hc, hb] using hps
        · simp at hle
          simp only [List.length_cons]
          omega
      · refine ⟨.Whitespace, s, ?_, hA, by rw [hs]⟩
        simp [parseSpace, hpeek, hc]

/-- `bump_while` succeeds on ASCII input for any predicate rejecting the
`'\0'` end-of-input placeholder. -/
theorem bumpWhile_total : ∀ (fuel : Nat) (pred : Char → Bool) (s : ScanState),
    pred (Char.ofNat 0) = false →
    AsciiSrc s.cursor.source → s.cursor.source.length < fuel →
    ∃ s', bumpWhile fuel pred s = some s' ∧ AsciiSrc s'.cursor.source ∧
      s'.cursor.source.length ≤ s.cursor.source.length := by
  intro fuel
  induction fuel with
  | zero => intro _ s _ _ h; omega
  | succ fuel ih =>
    intro pred s hpred hA hl
    match hs : s.cursor.source with
    | [] =>
      refine ⟨s, ?_, hA, by rw [hs]⟩
      simp [bumpWhile, Cursor.peek, Cursor.peekNth, hs, hpred]
    | sc :: rest =>
      have hw : sc.w = 1 := (hA sc (by simp [hs])).2
      have hpeek : s.cursor.peek = some sc.c := by simp [Cursor.peek, Cursor.peekNth, hs]
      by_cases hp : pred sc.c
      · have hb := bump_ascii_cons s.cursor sc rest hs hw
        have hA' : AsciiSrc rest := fun x hx => hA x (by simp [hs, hx])
        obtain ⟨s', hps, hA2, hle⟩ :=
          ih pred { s with cursor := { s.cursor with source := rest, pos := s.cursor.pos + 1 } }
            hpred hA' (by rw [hs] at hl; simp at hl ⊢; omega)
        refine ⟨s', ?_, hA2, ?_⟩
        · simpa [bumpWhile, hpeek, hp, hb] using hps
        · simp at hle
          simp only [List.length_cons]
          omega
      · refine ⟨s, ?_, hA, by rw [hs]⟩
        simp [bumpWhile, hpeek, hp]

/-- The `//` comment loop succeeds on ASCII input. -/
theorem commentLoop_total : ∀ (fuel : Nat) (s : ScanState),
    AsciiSrc s.cursor.source → s.cursor.source.length < fuel →
    ∃ s', commentLoop fuel s = some s' ∧ AsciiSrc s'.cursor.source ∧
      s'.cursor.source.length ≤ s.cursor.source.length := by
  intro fuel
  induction fuel with
  | zero => intro s _ h; omega
  | succ fuel ih =>
    intro s hA hl
    match hs : s.cursor.source with
    | [] =>
      refine ⟨s, ?_, hA, by rw [hs]⟩
      simp [commentLoop, Cursor.peek, Cursor.peekNth, hs]
    | sc :: rest =>
      have hw : sc.w = 1 := (hA sc (by simp [hs])).2
      have hpeek : s.cursor.peek = some sc.c := by simp [Cursor.peek, Cursor.peekNth, hs]
      by_cases hp : sc.c = '\n'
      · refine ⟨s, ?_, hA, by rw [hs]⟩
        simp [commentLoop, hpeek, hp]
      · have hb := bump_ascii_cons s.cursor sc rest hs hw
        have hA' : AsciiSrc rest := fun x hx => hA x (by simp [hs, hx])
        obtain ⟨s', hps, hA2, hle⟩ :=
          ih { s with cursor := { s.cursor with source := rest, pos := s.cursor.pos + 1 } }
            hA' (by rw [hs] at hl; simp at hl ⊢; omega)
        refine ⟨s', ?_, hA2, ?_⟩
        · simpa [commentLoop, hpeek, hp, hb] using hps
        · simp at hle
          simp only [List.length_cons]
          omega

/-- `parse_string` succeeds on ASCII input. -/
theorem parseString_total : ∀ (fuel : Nat) (s : ScanState),
    AsciiSrc s.cursor.source → s.cursor.source.length < fuel →
    ∃ r s', parseString fuel s = some (r, s') ∧ AsciiSrc s'.cursor.source ∧
      s'.cursor.source.length ≤ s.cursor.source.length := by
  intro fuel
  induction fuel with
  | zero => intro s _ h; omega
  | succ fuel ih =>
    intro s hA hl
    match hs : s.cursor.source with
    | [] =>
      refine ⟨none, s, ?_, hA, by rw [hs]⟩
      simp [parseString, Cursor.peek, Cursor.peekNth, hs]
    | sc :: rest =>
      have hw : sc.w = 1 := (hA sc (by simp [hs])).2
      have hpeek : s.cursor.peek = some sc.c := by simp [Cursor.peek, Cursor.peekNth, hs]
      have hb := bump_ascii_cons s.cursor sc rest hs hw
      have hA' : AsciiSrc rest := fun x hx => hA x (by simp [hs, hx])
      by_cases hq : sc.c = '"'
      · refine ⟨some .String,
          { s with cursor := { s.cursor with source := rest, pos := s.cursor.pos + 1 } }, ?_,
          hA', ?_⟩
        · simp [parseString, hpeek, hq, hb]
        · simp [hs]
      · by_cases hn : sc.c = '\n' ∨ sc.c = '\r'
        · refine ⟨none, s, ?_, hA, by rw [hs]⟩
          simp [parseString, hpeek, hq, hn]
        · obtain ⟨r, s', hps, hA2, hle⟩ :=
            ih { s with cursor := { s.cursor with source := rest, pos := s.cursor.pos + 1 } }
              hA' (by rw [hs] at hl; simp at hl ⊢; omega)
          refine ⟨r, s', ?_, hA2, ?_⟩
          · simpa [parseString, hpeek, hq, hn, hb] using hps
          · simp at hle
            simp only [List.length_cons]
            omega


/-- `parse_number` succeeds on ASCII input. -/
theorem parseNumberLoop_total : ∀ (fuel : Nat) (punto : Bool) (s : ScanState),
    AsciiSrc s.cursor.source → s.cursor.source.length < fuel →
    ∃ r s', parseNumberLoop fuel punto s = some (r, s') ∧ AsciiSrc s'.cursor.source ∧
      s'.cursor.source.length ≤ s.cursor.source.length := by
  intro fuel
  induction fuel with
  | zero => intro _ s _ h; omega
  | succ fuel ih =>
    intro punto s hA hl
    match hs : s.cursor.source with
    | [] =>
      refine ⟨some .Number, s, ?_, hA, by rw [hs]⟩
      simp [parseNumberLoop, Cursor.peek, Cursor.peekNth, hs]
    | sc :: rest =>
      have hw : sc.w = 1 := (hA sc (by simp [hs])).2
      have hpeek : s.cursor.peek = some sc.c := by simp [Cursor.peek, Cursor.peekNth, hs]
      have hb := bump_ascii_cons s.cursor sc rest hs hw
      have hA' : AsciiSrc rest := fun x hx => hA x (by simp [hs, hx])
      by_cases hd : sc.c.isDigit
      · obtain ⟨r, s', hps, hA2, hle⟩ :=
          ih punto { s with cursor := { s.cursor with source := rest, pos := s.cursor.pos + 1 } }
            hA' (by rw [hs] at hl; simp at hl ⊢; omega)
        refine ⟨r, s', ?_, hA2, ?_⟩
        · simpa [parseNumberLoop, hpeek, hd, hb] using hps
        · simp at hle
          simp only [List.length_cons]
          omega
      · by_cases hdot : sc.c = '.'
        · by_cases hnx : nxtIsNum s = true
          · by_cases hpunto : punto = true
            · obtain ⟨s', hbw, hA2, hle⟩ :=
                bumpWhile_total (fuel + 1) isNumRunChar s (by decide) hA hl
              refine ⟨none, s', ?_, hA2, by rw [hs] at hle; exact hle⟩
              subst hpunto
              simp [parseNumberLoop, hpeek, hd, hdot, hnx, hbw]
            · have hpunto' : punto = false := by
                cases punto
                · rfl
                · exact absurd rfl hpunto
              subst hpunto'
              obtain ⟨r, s', hps, hA2, hle⟩ :=
                ih true
                  { s with cursor := { s.cursor with source := rest, pos := s.cursor.pos + 1 } }
                  hA' (by rw [hs] at hl; simp at hl ⊢; omega)
              refine ⟨r, s', ?_, hA2, ?_⟩
              · simpa [parseNumberLoop, hpeek, hd, hdot, hnx, hb] using hps
              · simp at hle
                simp only [List.length_cons]
                omega
          · refine ⟨some .Number, s, ?_, hA, by rw [hs]⟩
            simp [parseNumberLoop, hpeek, hd, hdot, hnx]
        · refine ⟨some .Number, s, ?_, hA, by rw [hs]⟩
          simp [parseNumberLoop, hpeek, hd, hdot]

/-- `parse_reserved` succeeds on ASCII input. -/
theorem parseReserved_total (fuel : Nat) (s : ScanState)
    (hA : AsciiSrc s.cursor.source) (hl : s.cursor.source.length < fuel) :
    ∃ r s', parseReserved fuel s = some (r, s') ∧ AsciiSrc s'.cursor.source ∧
      s'.cursor.source.length ≤ s.cursor.source.length := by
  obtain ⟨s', hbw, hA2, hle⟩ := bumpWhile_total fuel isIdentChar s (by decide) hA hl
  refine ⟨keywordLookup (((s'.cursor.orig.drop s'.start).take
      (s'.cursor.pos - s'.start)).map (·.c)), s', ?_, hA2, hle⟩
  simp [parseReserved, hbw]

/-- `on_match` when the lookahead matches. -/
theorem onMatchConst_hit (ch : Char) (k : TokenKind) (s : ScanState) (sc : SChar)
    (rest : List SChar) (hs : s.cursor.source = sc :: rest) (hc : sc.c = ch)
    (hw : sc.w = 1) :
    onMatchConst ch k s = some (some (k,
      { s with cursor := { s.cursor with source := rest, pos := s.cursor.pos + 1 } })) := by
  have hpeek : s.cursor.peek = some ch := by simp [Cursor.peek, Cursor.peekNth, hs, hc]
  simp [onMatchConst, hpeek, bump_ascii_cons s.cursor sc rest hs hw]

/-- `on_match` when the lookahead does not match. -/
theorem onMatchConst_miss (ch : Char) (k : TokenKind) (s : ScanState)
    (h : ¬ s.cursor.peek = some ch) :
    onMatchConst ch k s = some none := by
  simp [onMatchConst, h]

/-- `on_match` always succeeds on ASCII input. -/
theorem onMatchConst_total (ch : Char) (k : TokenKind) (s : ScanState)
    (hA : AsciiSrc s.cursor.source) :
    (∃ s', onMatchConst ch k s = some (some (k, s')) ∧ AsciiSrc s'.cursor.source ∧
      s'.cursor.source.length ≤ s.cursor.source.length) ∨
    onMatchConst ch k s = some none := by
  by_cases hp : s.cursor.peek = some ch
  · left
    match hs : s.cursor.source with
    | [] => simp [Cursor.peek, Cursor.peekNth, hs] at hp
    | sc :: rest =>
      have hc : sc.c = ch := by
        simp [Cursor.peek, Cursor.peekNth, hs] at hp
        exact hp
      have hw : sc.w = 1 := (hA sc (by simp [hs])).2
      refine ⟨_, onMatchConst_hit ch k s sc rest hs hc hw, ?_, ?_⟩
      · exact fun x hx => hA x (by simp [hs, hx])
      · simp [hs]
  · right
    exact onMatchConst_miss ch k s hp

/-- The classification dispatch `parse_next` succeeds on ASCII input. -/
theorem parseNext_total : ∀ (fuel : Nat) (c : Char) (s : ScanState),
    AsciiSrc s.cursor.source → s.cursor.source.length < fuel →
    ∃ r s', parseNext fuel c s = some (r, s') ∧ AsciiSrc s'.cursor.source ∧
      s'.cursor.source.length ≤ s.cursor.source.length := by
  intro fuel c s hA hl
  by_cases h1 : c.isAlpha ∨ c = '_'
  · obtain ⟨r, s', hr, hA2, hle⟩ := parseReserved_total fuel s hA hl
    exact ⟨.ok (r.getD .Identifier), s', by simp [parseNext, h1, hr], hA2, hle⟩
  · by_cases h2 : c.isDigit
    · obtain ⟨r, s', hr, hA2, hle⟩ := parseNumberLoop_total fuel false s hA hl
      match r with
      | some k =>
        exact ⟨.ok k, s', by simp [parseNext, h1, h2, parseNumber, hr], hA2, hle⟩
      | none =>
        exact ⟨.error .InvalidNumber, s',
          by simp [parseNext, h1, h2, parseNumber, hr], hA2, hle⟩
    · by_cases h3 : c = ' ' ∨ c = '\n' ∨ c = '\t' ∨ c = '\r'
      · obtain ⟨k, s', hr, hA2, hle⟩ := parseSpace_total fuel s hA hl
        exact ⟨.ok k, s', by simp [parseNext, h1, h2, h3, hr], hA2, hle⟩
      · by_cases h4 : c = '('
        · exact ⟨.ok .LeftParen, s, by simp [parseNext, h1, h2, h3, h4], hA, le_refl _⟩
        · by_cases h5 : c = ')'
          · exact ⟨.ok .RightParen, s, by simp [parseNext, h1, h2, h3, h4, h5], hA, le_refl _⟩
          · by_cases h6 : c = '{'
            · exact ⟨.ok .LeftBrace, s,
                by simp [parseNext, h1, h2, h3, h4, h5, h6], hA, le_refl _⟩
            · by_cases h7 : c = '}'
              · exact ⟨.ok .RightBrace, s,
                  by simp [parseNext, h1, h2, h3, h4, h5, h6, h7], hA, le_refl _⟩
              · by_cases h8 : c = ','
                · exact ⟨.ok .Comma, s,
                    by simp [parseNext, h1, h2, h3, h4, h5, h6, h7, h8], hA, le_refl _⟩
                · by_cases h9 : c = '.'
                  · exact ⟨.ok .Dot, s,
                      by simp [parseNext, h1, h2, h3, h4, h5, h6, h7, h8, h9], hA, le_refl _⟩
                  · by_cases h10 : c = '-'
                    · exact ⟨.ok .Minus, s,
                        by simp [parseNext, h1, h2, h3, h4, h5, h6, h7, h8, h9, h10],
                        hA, le_refl _⟩
                    · by_cases h11 : c = '+'
                      · exact ⟨.ok .Plus, s,
                          by simp [parseNext, h1, h2, h3, h4, h5, h6, h7, h8, h9, h10, h11],
                          hA, le_refl _⟩
                      · by_cases h12 : c = ';'
                        · exact ⟨.ok .Semicolon, s,
                            by simp [parseNext, h1, h2, h3, h4, h5, h6, h7, h8, h9, h10, h11,
                              h12], hA, le_refl _⟩
                        · by_cases h13 : c = '*'
                          · exact ⟨.ok .Star, s,
                              by simp [parseNext, h1, h2, h3, h4, h5, h6, h7, h8, h9, h10,
                                h11, h12, h13], hA, le_refl _⟩
                          · by_cases h14 : c = '!'
                            · rcases onMatchConst_total '=' .BangEqual s hA with
                                ⟨s', hm, hA2, hle⟩ | hm
                              · exact ⟨.ok .BangEqual, s',
                                  by simp [parseNext, h1, h2, h3, h4, h5, h6, h7, h8, h9,
                                    h10, h11, h12, h13, h14, hm], hA2, hle⟩
                              · exact ⟨.ok .Bang, s,
                                  by simp [parseNext, h1, h2, h3, h4, h5, h6, h7, h8, h9,
                                    h10, h11, h12, h13, h14, hm], hA, le_refl _⟩
                            · by_cases h15 : c = '='
                              · rcases onMatchConst_total '=' .EqualEqual s hA with
                                  ⟨s', hm, hA2, hle⟩ | hm
                                · exact ⟨.ok .EqualEqual, s',
                                    by simp [parseNext, h1, h2, h3, h4, h5, h6, h7, h8, h9,
                                      h10, h11, h12, h13, h14, h15, hm], hA2, hle⟩
                                · exact ⟨.ok .Equal, s,
                                    by simp [parseNext, h1, h2, h3, h4, h5, h6, h7, h8, h9,
                                      h10, h11, h12, h13, h14, h15, hm], hA, le_refl _⟩
                              · by_cases h16 : c = '>'
                                · rcases onMatchConst_total '=' .GreaterEqual s hA with
                                    ⟨s', hm, hA2, hle⟩ | hm
                                  · exact ⟨.ok .GreaterEqual, s',
                                      by simp [parseNext, h1, h2, h3, h4, h5, h6, h7, h8,
                                        h9, h10, h11, h12, h13, h14, h15, h16, hm], hA2, hle⟩
                                  · exact ⟨.ok .Greater, s,
                                      by simp [parseNext, h1, h2, h3, h4, h5, h6, h7, h8,
                                        h9, h10, h11, h12, h13, h14, h15, h16, hm], hA,
                                      le_refl _⟩
                                · by_cases h17 : c = '<'
                                  · rcases onMatchConst_total '=' .LessEqual s hA with
                                      ⟨s', hm, hA2, hle⟩ | hm
                                    · exact ⟨.ok .LessEqual, s',
                                        by simp [parseNext, h1, h2, h3, h4, h5, h6, h7, h8,
                                          h9, h10, h11, h12, h13, h14, h15, h16, h17, hm],
                                        hA2, hle⟩
                                    · exact ⟨.ok .Less, s,
                                        by simp [parseNext, h1, h2, h3, h4, h5, h6, h7, h8,
                                          h9, h10, h11, h12, h13, h14, h15, h16, h17, hm],
                                        hA, le_refl _⟩
                                  · by_cases h18 : c = '/'
                                    · rcases onMatchConst_total '/' .CommentLine s hA with
                                        ⟨s', hm, hA2, hle⟩ | hm
                                      · obtain ⟨s'', hcl, hA3, hle2⟩ :=
                                          commentLoop_total fuel s' hA2 (by omega)
                                        exact ⟨.ok .CommentLine, s'',
                                          by simp [parseNext, h1, h2, h3, h4, h5, h6, h7,
                                            h8, h9, h10, h11, h12, h13, h14, h15, h16, h17,
                                            h18, hm, hcl], hA3, by omega⟩
                                      · exact ⟨.ok .Slash, s,
                                          by simp [parseNext, h1, h2, h3, h4, h5, h6, h7,
                                            h8, h9, h10, h11, h12, h13, h14, h15, h16, h17,
                                            h18, hm], hA, le_refl _⟩
                                    · by_cases h19 : c = '"'
                                      · obtain ⟨r, s', hr, hA2, hle⟩ :=
                                          parseString_total fuel s hA hl
                                        match r with
                                        | some k =>
                                          exact ⟨.ok k, s',
                                            by simp [parseNext, h1, h2, h3, h4, h5, h6, h7,
                                              h8, h9, h10, h11, h12, h13, h14, h15, h16,
                                              h17, h18, h19, hr], hA2, hle⟩
                                        | none =>
                                          exact ⟨.error .UnfinishedStr, s',
                                            by simp [parseNext, h1, h2, h3, h4, h5, h6, h7,
                                              h8, h9, h10, h11, h12, h13, h14, h15, h16,
                                              h17, h18, h19, hr], hA2, hle⟩
                                      · exact ⟨.error .UnknownToken, s,
                                          by simp [parseNext, h1, h2, h3, h4, h5, h6, h7,
                                            h8, h9, h10, h11, h12, h13, h14, h15, h16, h17,
                                            h18, h19], hA, le_refl _⟩

/-- One scanner-iterator step on ASCII input: either the input is exhausted
(the iteration reports its end) or one element is produced and at least one
character is consumed. -/
theorem scanNext_total (fuel : Nat) (s : ScanState)
    (hA : AsciiSrc s.cursor.source) (hl : s.cursor.source.length ≤ fuel) :
    (s.cursor.source = [] ∧ scanNext fuel s = some (none, s)) ∨
    (∃ r s', scanNext fuel s = some (some r, s') ∧ AsciiSrc s'.cursor.source ∧
      s'.cursor.source.length < s.cursor.source.length) := by
  match hs : s.cursor.source with
  | [] =>
    left
    refine ⟨rfl, ?_⟩
    simp [scanNext, Cursor.next, hs]
  | sc :: rest =>
    right
    have hw : sc.w = 1 := (hA sc (by simp [hs])).2
    have hnext : s.cursor.next = some (some sc.c,
        { s.cursor with source := rest, pos := s.cursor.pos + 1 }) := by
      simp [Cursor.next, hs, hw]
    have hA' : AsciiSrc rest := fun x hx => hA x (by simp [hs, hx])
    obtain ⟨r, s', hp, hA2, hle⟩ := parseNext_total fuel sc.c
      ⟨{ s.cursor with source := rest, pos := s.cursor.pos + 1 }, s.cursor.pos⟩
      hA' (by simp; rw [hs] at hl; simp at hl; omega)
    match r with
    | .ok tt =>
      refine ⟨.ok ⟨tt, ⟨s'.start, s'.cursor.pos⟩⟩, s', ?_, hA2, ?_⟩
      · simp [scanNext, hnext, hp]
      · simp at hle
        simp only [List.length_cons]
        omega
    | .error e =>
      refine ⟨.error ⟨⟨s'.start, s'.cursor.pos⟩, e⟩, s', ?_, hA2, ?_⟩
      · simp [scanNext, hnext, hp]
      · simp at hle
        simp only [List.length_cons]
        omega

/-- Scanning ASCII input runs to completion: with fuel exceeding the source
length, the whole (finite) element sequence is produced, with no panic. -/
theorem scanAll_total : ∀ (fuel : Nat) (s : ScanState),
    AsciiSrc s.cursor.source → s.cursor.source.length < fuel →
    ∃ rs, scanAll fuel s = some rs := by
  intro fuel
  induction fuel with
  | zero => intro s _ h; omega
  | succ fuel ih =>
    intro s hA hl
    rcases scanNext_total (fuel + 1) s hA (by omega) with ⟨-, hsn⟩ | ⟨r, s', hsn, hA2, hlt⟩
    · exact ⟨[], by simp [scanAll, hsn]⟩
    · obtain ⟨rs, hrec⟩ := ih s' hA2 (by omega)
      exact ⟨r :: rs, by simp [scanAll, hsn, hrec]⟩

/-- C3: the scanner iteration is total on all-ASCII input — every `next()`
step returns an element or ends the finite iteration, without panicking — but
on the valid UTF-8 input `"é"`, whose first character occupies two bytes, the
very first `next()` call panics (modelled `none`, for every fuel), because the
cursor advances its byte slice by exactly one byte per character consumed. -/
theorem c3_scanner_totality :
    (∀ src : List SChar, AsciiSrc src →
      ∃ rs, scanAll (src.length + 1) (ScanState.new src) = some rs) ∧
    (∀ fuel : Nat, scanNext fuel (ScanState.new [⟨'é', 2⟩]) = none) ∧
    (∀ fuel : Nat, scanAll (fuel + 1) (ScanState.new [⟨'é', 2⟩]) = none) := by
  refine ⟨fun src hA => scanAll_total (src.length + 1) (ScanState.new src) hA ?_, ?_, ?_⟩
  · simp [ScanState.new]
  · intro fuel
    rfl
  · intro fuel
    rfl

theorem c3_scanner_totality_witness :
    ∃ rs, scanAll ((asciiSrc "1+2").length + 1) (ScanState.new (asciiSrc "1+2")) = some rs :=
  c3_scanner_totality.1 (asciiSrc "1+2") (by decide)

/-! ## C6 — unary pair-cancellation -/

/-- The `'l: loop` of `fn unary` on a run of `n` identical unary-operator
tokens followed by a literal token: it consumes the maximal even prefix,
leaving the cursor advanced by `2 * (n / 2)`. -/
theorem cancelPairs_run (op : TokenKind) (hop : op = .Minus ∨ op = .Bang)
    (lit : Token) (hlit : lit.tipo = .Number ∨ lit.tipo = .True) :
    ∀ (n fuel : Nat) (p : Parser) (run : List Token), n < fuel → run.length = n →
    (∀ t ∈ run, t.tipo = op) →
    p.tokens.drop p.cursor = run ++ [lit] →
    ∃ pv, cancelPairs fuel p =
      some { p with cursor := p.cursor + 2 * (n / 2), prev := pv } := by
  intro n
  induction n using Nat.strong_induction_on with
  | _ n ih =>
    intro fuel p run hfuel hlen hall hdrop
    have hget : ∀ i, p.tokens[p.cursor + i]? = (run ++ [lit])[i]? := by
      intro i
      rw [← List.getElem?_drop, hdrop]
    match fuel, hfuel with
    | fuel + 1, _ =>
    match run, hlen with
    | [], hlen =>
      subst hlen
      have h0 : p.tokens[p.cursor]? = some lit := by simpa using hget 0
      refine ⟨p.prev, ?_⟩
      have hc : p.chunk2 = (lit, p.tokens.getD (p.cursor + 1) Token.default) := by
        simp [Parser.chunk2, List.getD_eq_getElem?_getD, h0]
      have h1 : p.tokens[p.cursor + 1]? = none := by simpa using hget 1
      have hc2 : p.tokens.getD (p.cursor + 1) Token.default = Token.default := by
        simp [List.getD_eq_getElem?_getD, h1]
      rw [hc2] at hc
      rcases hlit with h | h <;> simp [cancelPairs, hc, h, Token.default]
    | [t1], hlen =>
      subst hlen
      have h0 : p.tokens[p.cursor]? = some t1 := by simpa using hget 0
      have h1 : p.tokens[p.cursor + 1]? = some lit := by simpa using hget 1
      have hc : p.chunk2 = (t1, lit) := by
        simp [Parser.chunk2, List.getD_eq_getElem?_getD, h0, h1]
      have ht1 : t1.tipo = op := hall t1 (by simp)
      refine ⟨p.prev, ?_⟩
      rcases hop with h | h <;> rcases hlit with hl | hl <;>
        simp [cancelPairs, hc, ht1, h, hl]
    | t1 :: t2 :: run', hlen =>
      have hn2 : n = run'.length + 2 := by
        simp at hlen
        omega
      have h0 : p.tokens[p.cursor]? = some t1 := by simpa using hget 0
      have h1 : p.tokens[p.cursor + 1]? = some t2 := by simpa using hget 1
      have hc : p.chunk2 = (t1, t2) := by
        simp [Parser.chunk2, List.getD_eq_getElem?_getD, h0, h1]
      have ht1 : t1.tipo = op := hall t1 (by simp)
      have ht2 : t2.tipo = op := hall t2 (by simp)
      have hbump : p.bumpN 2 = { p with prev := t2, cursor := p.cursor + 2 } := by
        simp [Parser.bumpN, Parser.bump, h0]
        have h1' : p.tokens[p.cursor + 1]? = some t2 := h1
        simp [h1']
      have hdrop' :
          ({ p with prev := t2, cursor := p.cursor + 2 } : Parser).tokens.drop
            (p.cursor + 2) = run' ++ [lit] := by
        show p.tokens.drop (p.cursor + 2) = run' ++ [lit]
        have : p.tokens.drop (p.cursor + 2) = (p.tokens.drop p.cursor).drop 2 := by
          rw [List.drop_drop]
        rw [this, hdrop]
        rfl
      have hn' : run'.length < n := by omega
      have hf' : run'.length < fuel := by omega
      obtain ⟨pv, hrec⟩ := ih run'.length hn' fuel
        { p with prev := t2, cursor := p.cursor + 2 } run' hf' rfl
        (fun t htm => hall t (by simp [htm])) hdrop'
      refine ⟨pv, ?_⟩
      have harith : p.cursor + 2 + 2 * (run'.length / 2) = p.cursor + 2 * (n / 2) := by
        omega
      rcases hop with h | h <;>
      · subst h
        simp only [cancelPairs, hc, ht1, ht2]
        rw [hbump, hrec]
        simp [harith]

/-- `primary` at a `Number` token: decode the source slice at the token's
span. -/
theorem primary_number (fuel : Nat) (p : Parser) (t : Token)
    (h : p.tokens[p.cursor]? = some t) (ht : t.tipo = .Number) :
    primary (fuel + 1) p =
      some (.ok ⟨t.span, .Number (decodeNumber (sliceSource p.source t.span))⟩,
        { p with prev := t, cursor := p.cursor + 1 }) := by
  simp [primary, Parser.advance, Parser.bump, h, ht]

/-- `primary` at a `True` token. -/
theorem primary_true (fuel : Nat) (p : Parser) (t : Token)
    (h : p.tokens[p.cursor]? = some t) (ht : t.tipo = .True) :
    primary (fuel + 1) p =
      some (.ok ⟨t.span, .Bool true⟩, { p with prev := t, cursor := p.cursor + 1 }) := by
  simp [primary, Parser.advance, Parser.bump, h, ht]

/-- `fn unary` when the token after pair-cancellation is not a unary
operator: fall through to `primary`. -/
theorem unary_not_op (fuel : Nat) (p p1 : Parser) (t : Token)
    (hc : cancelPairs (fuel + 1) p = some p1) (hp : p1.peek = some t)
    (ht1 : t.tipo ≠ .Minus) (ht2 : t.tipo ≠ .Bang) :
    unary (fuel + 1) p = primary fuel p1 := by
  simp [unary, hc, hp, ht1, ht2]

/-- Descending the grammar: when `unary` succeeds and afterwards no token is
left, every enclosing level passes the expression through unchanged. -/
theorem parse_of_unary (fuel : Nat) (p : Parser) (u : Expression) (p' : Parser)
    (hu : unary (fuel + 1) p = some (.ok u, p')) (hend : p'.peek = none) :
    parse (fuel + 5) p = some (.ok u, p') := by
  have hfl : factorLoop (fuel + 1) u p' = some (.ok u, p') := by
    simp [factorLoop, hend]
  have hf : factor (fuel + 2) p = some (.ok u, p') := by
    simp [factor, hu, hfl]
  have htl : termLoop (fuel + 2) u p' = some (.ok u, p') := by
    simp [termLoop, hend]
  have ht : term (fuel + 3) p = some (.ok u, p') := by
    simp [term, hf, htl]
  have hcl : comparisonLoop (fuel + 3) u p' = some (.ok u, p') := by
    simp [comparisonLoop, hend]
  have hcmp : comparison (fuel + 4) p = some (.ok u, p') := by
    simp [comparison, ht, hcl]
  have hel : equalityLoop (fuel + 4) u p' = some (.ok u, p') := by
    simp [equalityLoop, hend]
  show equality (fuel + 5) p = some (.ok u, p')
  simp [equality, hcmp, hel]

/-- Indexing an operator-run token stream inside the run. -/
theorem runToks_get_lt (k : TokenKind) (lit : Token) (n i : Nat) (h : i < n) :
    ((List.range n).map (fun j => (⟨k, ⟨j, j + 1⟩⟩ : Token)) ++ [lit])[i]? =
      some ⟨k, ⟨i, i + 1⟩⟩ := by
  rw [List.getElem?_append]
  simp [List.getElem?_map, List.getElem?_range h, h]

/-- Indexing an operator-run token stream at the literal. -/
theorem runToks_get_n (k : TokenKind) (lit : Token) (n : Nat) :
    ((List.range n).map (fun j => (⟨k, ⟨j, j + 1⟩⟩ : Token)) ++ [lit])[n]? = some lit := by
  rw [List.getElem?_append_right (by simp)]
  simp

/-- Indexing an operator-run token stream past the end. -/
theorem runToks_get_past (k : TokenKind) (lit : Token) (n : Nat) :
    ((List.range n).map (fun j => (⟨k, ⟨j, j + 1⟩⟩ : Token)) ++ [lit])[n + 1]? = none := by
  rw [List.getElem?_eq_none]
  simp

/-- The number token's span of a `-` run source slices to `"5"`. -/
theorem minusRunSrc_slice (n : Nat) :
    sliceSource (minusRunSrc n) ⟨n, n + 1⟩ = ['5'] := by
  simp [sliceSource, minusRunSrc]

/-- `"5"` decodes to the value 5. -/
theorem decode5 : decodeNumber ['5'] = 5 := by decide

/-- A `-` run: even-length runs cancel to the bare number literal, odd-length
runs leave exactly one `Unary(.., Minus)` application. -/
theorem c6_minus_run (n : Nat) :
    ∃ p', parse (n + 10) (Parser.new (minusRunToks n) (minusRunSrc n)) =
      some (.ok (if n % 2 = 0 then ⟨⟨n, n + 1⟩, .Number 5⟩
                 else ⟨⟨n, n + 1⟩, .Unary ⟨⟨n, n + 1⟩, .Number 5⟩ .Minus⟩), p') := by
  have hdrop : (Parser.new (minusRunToks n) (minusRunSrc n)).tokens.drop
      (Parser.new (minusRunToks n) (minusRunSrc n)).cursor =
      ((List.range n).map (fun j => (⟨.Minus, ⟨j, j + 1⟩⟩ : Token))) ++
        [⟨.Number, ⟨n, n + 1⟩⟩] := by
    simp [Parser.new, minusRunToks]
  obtain ⟨pv, hcan⟩ := cancelPairs_run .Minus (Or.inl rfl) ⟨.Number, ⟨n, n + 1⟩⟩
    (Or.inl rfl) n (n + 6) (Parser.new (minusRunToks n) (minusRunSrc n))
    ((List.range n).map (fun j => (⟨.Minus, ⟨j, j + 1⟩⟩ : Token)))
    (by omega) (by simp) (by simp) hdrop
  simp only [Parser.new] at hcan
  by_cases hpar : n % 2 = 0
  · have h2 : 0 + 2 * (n / 2) = n := by omega
    rw [h2] at hcan
    have hcan' : cancelPairs (n + 6) (Parser.new (minusRunToks n) (minusRunSrc n)) =
        some ⟨minusRunSrc n, minusRunToks n, pv, n, []⟩ := hcan
    have hp : (⟨minusRunSrc n, minusRunToks n, pv, n, []⟩ : Parser).peek =
        some ⟨.Number, ⟨n, n + 1⟩⟩ := by
      rw [Parser.peek_def]
      exact runToks_get_n .Minus _ n
    have hnop := unary_not_op (n + 5) (Parser.new (minusRunToks n) (minusRunSrc n))
      ⟨minusRunSrc n, minusRunToks n, pv, n, []⟩
      ⟨.Number, ⟨n, n + 1⟩⟩ hcan' hp (by simp) (by simp)
    have hpn := primary_number (n + 4) ⟨minusRunSrc n, minusRunToks n, pv, n, []⟩
      ⟨.Number, ⟨n, n + 1⟩⟩ (by simpa [Parser.peek_def] using hp) rfl
    have hval : decodeNumber (sliceSource
        (⟨minusRunSrc n, minusRunToks n, pv, n, []⟩ : Parser).source
        (⟨n, n + 1⟩ : Span)) = 5 := by
      show decodeNumber (sliceSource (minusRunSrc n) ⟨n, n + 1⟩) = 5
      rw [minusRunSrc_slice, decode5]
    rw [hval] at hpn
    have hpn' : primary (n + 4 + 1) (⟨minusRunSrc n, minusRunToks n, pv, n, []⟩ : Parser) =
        some (.ok ⟨⟨n, n + 1⟩, .Number 5⟩,
          ⟨minusRunSrc n, minusRunToks n, ⟨.Number, ⟨n, n + 1⟩⟩, n + 1, []⟩) := hpn
    have hu : unary (n + 5 + 1) (Parser.new (minusRunToks n) (minusRunSrc n)) =
        some (.ok ⟨⟨n, n + 1⟩, .Number 5⟩,
          ⟨minusRunSrc n, minusRunToks n, ⟨.Number, ⟨n, n + 1⟩⟩, n + 1, []⟩) := by
      rw [hnop]
      exact hpn'
    have hend : (⟨minusRunSrc n, minusRunToks n, ⟨.Number, ⟨n, n + 1⟩⟩, n + 1, []⟩ :
        Parser).peek = none := by
      rw [Parser.peek_def]
      exact runToks_get_past .Minus _ n
    refine ⟨⟨minusRunSrc n, minusRunToks n, ⟨.Number, ⟨n, n + 1⟩⟩, n + 1, []⟩, ?_⟩
    rw [if_pos hpar]
    exact parse_of_unary (n + 5) _ _ _ hu hend
  · have hn1 : 1 ≤ n := by omega
    have h2 : 0 + 2 * (n / 2) = n - 1 := by omega
    rw [h2] at hcan
    have hcan' : cancelPairs (n + 5 + 1) (Parser.new (minusRunToks n) (minusRunSrc n)) =
        some ⟨minusRunSrc n, minusRunToks n, pv, n - 1, []⟩ := hcan
    have hp : (⟨minusRunSrc n, minusRunToks n, pv, n - 1, []⟩ : Parser).peek =
        some ⟨.Minus, ⟨n - 1, n⟩⟩ := by
      rw [Parser.peek_def]
      have := runToks_get_lt .Minus ⟨.Number, ⟨n, n + 1⟩⟩ n (n - 1) (by omega)
      rw [show n - 1 + 1 = n from by omega] at this
      exact this
    have hbump : (⟨minusRunSrc n, minusRunToks n, pv, n - 1, []⟩ : Parser).bump =
        ⟨minusRunSrc n, minusRunToks n, ⟨.Minus, ⟨n - 1, n⟩⟩, n, []⟩ := by
      rw [Parser.bump_of_get _ _ (by simpa [Parser.peek_def] using hp)]
      simp [show n - 1 + 1 = n from by omega]
    have hdrop2 : (⟨minusRunSrc n, minusRunToks n, ⟨.Minus, ⟨n - 1, n⟩⟩, n, []⟩ :
        Parser).tokens.drop
        (⟨minusRunSrc n, minusRunToks n, ⟨.Minus, ⟨n - 1, n⟩⟩, n, []⟩ : Parser).cursor =
        ([] : List Token) ++ [⟨.Number, ⟨n, n + 1⟩⟩] := by
      show (minusRunToks n).drop n = _
      rw [minusRunToks]
      simp
    obtain ⟨pv2, hcan2⟩ := cancelPairs_run .Minus (Or.inl rfl) ⟨.Number, ⟨n, n + 1⟩⟩
      (Or.inl rfl) 0 (n + 5)
      ⟨minusRunSrc n, minusRunToks n, ⟨.Minus, ⟨n - 1, n⟩⟩, n, []⟩ []
      (by omega) rfl (by simp) hdrop2
    simp only [Nat.zero_div, Nat.mul_zero, Nat.add_zero] at hcan2
    have hcan2' : cancelPairs (n + 4 + 1)
        (⟨minusRunSrc n, minusRunToks n, ⟨.Minus, ⟨n - 1, n⟩⟩, n, []⟩ : Parser) =
        some ⟨minusRunSrc n, minusRunToks n, pv2, n, []⟩ := hcan2
    have hp2 : (⟨minusRunSrc n, minusRunToks n, pv2, n, []⟩ : Parser).peek =
        some ⟨.Number, ⟨n, n + 1⟩⟩ := by
      rw [Parser.peek_def]
      exact runToks_get_n .Minus _ n
    have hnop2 := unary_not_op (n + 4)
      (⟨minusRunSrc n, minusRunToks n, ⟨.Minus, ⟨n - 1, n⟩⟩, n, []⟩ : Parser)
      ⟨minusRunSrc n, minusRunToks n, pv2, n, []⟩
      ⟨.Number, ⟨n, n + 1⟩⟩ hcan2' hp2 (by simp) (by simp)
    have hpn2 := primary_number (n + 3) ⟨minusRunSrc n, minusRunToks n, pv2, n, []⟩
      ⟨.Number, ⟨n, n + 1⟩⟩ (by simpa [Parser.peek_def] using hp2) rfl
    have hval : decodeNumber (sliceSource
        (⟨minusRunSrc n, minusRunToks n, pv2, n, []⟩ : Parser).source
        (⟨n, n + 1⟩ : Span)) = 5 := by
      show decodeNumber (sliceSource (minusRunSrc n) ⟨n, n + 1⟩) = 5
      rw [minusRunSrc_slice, decode5]
    rw [hval] at hpn2
    have hpn2' : primary (n + 3 + 1) (⟨minusRunSrc n, minusRunToks n, pv2, n, []⟩ : Parser) =
        some (.ok ⟨⟨n, n + 1⟩, .Number 5⟩,
          ⟨minusRunSrc n, minusRunToks n, ⟨.Number, ⟨n, n + 1⟩⟩, n + 1, []⟩) := hpn2
    have huInner : unary (n + 5)
        ((⟨minusRunSrc n, minusRunToks n, pv, n - 1, []⟩ : Parser).bump) =
        some (.ok ⟨⟨n, n + 1⟩, .Number 5⟩,
          ⟨minusRunSrc n, minusRunToks n, ⟨.Number, ⟨n, n + 1⟩⟩, n + 1, []⟩) := by
      rw [hbump]
      show unary (n + 4 + 1) _ = _
      rw [hnop2]
      exact hpn2'
    have happ := unary_applies_op (n + 5)
      (Parser.new (minusRunToks n) (minusRunSrc n))
      ⟨minusRunSrc n, minusRunToks n, pv, n - 1, []⟩
      ⟨.Minus, ⟨n - 1, n⟩⟩ ⟨⟨n, n + 1⟩, .Number 5⟩
      ⟨minusRunSrc n, minusRunToks n, ⟨.Number, ⟨n, n + 1⟩⟩, n + 1, []⟩
      hcan' hp (Or.inl rfl) huInner
    simp only [Expression.span] at happ
    have hend : (⟨minusRunSrc n, minusRunToks n, ⟨.Number, ⟨n, n + 1⟩⟩, n + 1, []⟩ :
        Parser).peek = none := by
      rw [Parser.peek_def]
      exact runToks_get_past .Minus _ n
    refine ⟨⟨minusRunSrc n, minusRunToks n, ⟨.Number, ⟨n, n + 1⟩⟩, n + 1, []⟩, ?_⟩
    rw [if_neg hpar]
    refine parse_of_unary (n + 5) _ _ _ ?_ hend
    rw [happ]
    simp

/-- A `!` run: even-length runs cancel to the bare `true` literal, odd-length
runs leave exactly one `Unary(.., Bang)` application. -/
theorem c6_bang_run (n : Nat) :
    ∃ p', parse (n + 10) (Parser.new (bangRunToks n) (bangRunSrc n)) =
      some (.ok (if n % 2 = 0 then ⟨⟨n, n + 4⟩, .Bool true⟩
                 else ⟨⟨n, n + 4⟩, .Unary ⟨⟨n, n + 4⟩, .Bool true⟩ .Bang⟩), p') := by
  have hdrop : (Parser.new (bangRunToks n) (bangRunSrc n)).tokens.drop
      (Parser.new (bangRunToks n) (bangRunSrc n)).cursor =
      ((List.range n).map (fun j => (⟨.Bang, ⟨j, j + 1⟩⟩ : Token))) ++
        [⟨.True, ⟨n, n + 4⟩⟩] := by
    simp [Parser.new, bangRunToks]
  obtain ⟨pv, hcan⟩ := cancelPairs_run .Bang (Or.inr rfl) ⟨.True, ⟨n, n + 4⟩⟩
    (Or.inr rfl) n (n + 6) (Parser.new (bangRunToks n) (bangRunSrc n))
    ((List.range n).map (fun j => (⟨.Bang, ⟨j, j + 1⟩⟩ : Token)))
    (by omega) (by simp) (by simp) hdrop
  simp only [Parser.new] at hcan
  by_cases hpar : n % 2 = 0
  · have h2 : 0 + 2 * (n / 2) = n := by omega
    rw [h2] at hcan
    have hcan' : cancelPairs (n + 5 + 1) (Parser.new (bangRunToks n) (bangRunSrc n)) =
        some ⟨bangRunSrc n, bangRunToks n, pv, n, []⟩ := hcan
    have hp : (⟨bangRunSrc n, bangRunToks n, pv, n, []⟩ : Parser).peek =
        some ⟨.True, ⟨n, n + 4⟩⟩ := by
      rw [Parser.peek_def]
      exact runToks_get_n .Bang _ n
    have hnop := unary_not_op (n + 5) (Parser.new (bangRunToks n) (bangRunSrc n))
      ⟨bangRunSrc n, bangRunToks n, pv, n, []⟩
      ⟨.True, ⟨n, n + 4⟩⟩ hcan' hp (by simp) (by simp)
    have hpt := primary_true (n + 4) ⟨bangRunSrc n, bangRunToks n, pv, n, []⟩
      ⟨.True, ⟨n, n + 4⟩⟩ (by simpa [Parser.peek_def] using hp) rfl
    have hpt' : primary (n + 4 + 1) (⟨bangRunSrc n, bangRunToks n, pv, n, []⟩ : Parser) =
        some (.ok ⟨⟨n, n + 4⟩, .Bool true⟩,
          ⟨bangRunSrc n, bangRunToks n, ⟨.True, ⟨n, n + 4⟩⟩, n + 1, []⟩) := hpt
    have hu : unary (n + 5 + 1) (Parser.new (bangRunToks n) (bangRunSrc n)) =
        some (.ok ⟨⟨n, n + 4⟩, .Bool true⟩,
          ⟨bangRunSrc n, bangRunToks n, ⟨.True, ⟨n, n + 4⟩⟩, n + 1, []⟩) := by
      rw [hnop]
      exact hpt'
    have hend : (⟨bangRunSrc n, bangRunToks n, ⟨.True, ⟨n, n + 4⟩⟩, n + 1, []⟩ :
        Parser).peek = none := by
      rw [Parser.peek_def]
      exact runToks_get_past .Bang _ n
    refine ⟨⟨bangRunSrc n, bangRunToks n, ⟨.True, ⟨n, n + 4⟩⟩, n + 1, []⟩, ?_⟩
    rw [if_pos hpar]
    exact parse_of_unary (n + 5) _ _ _ hu hend
  · have hn1 : 1 ≤ n := by omega
    have h2 : 0 + 2 * (n / 2) = n - 1 := by omega
    rw [h2] at hcan
    have hcan' : cancelPairs (n + 5 + 1) (Parser.new (bangRunToks n) (bangRunSrc n)) =
        some ⟨bangRunSrc n, bangRunToks n, pv, n - 1, []⟩ := hcan
    have hp : (⟨bangRunSrc n, bangRunToks n, pv, n - 1, []⟩ : Parser).peek =
        some ⟨.Bang, ⟨n - 1, n⟩⟩ := by
      rw [Parser.peek_def]
      have := runToks_get_lt .Bang ⟨.True, ⟨n, n + 4⟩⟩ n (n - 1) (by omega)
      rw [show n - 1 + 1 = n from by omega] at this
      exact this
    have hbump : (⟨bangRunSrc n, bangRunToks n, pv, n - 1, []⟩ : Parser).bump =
        ⟨bangRunSrc n, bangRunToks n, ⟨.Bang, ⟨n - 1, n⟩⟩, n, []⟩ := by
      rw [Parser.bump_of_get _ _ (by simpa [Parser.peek_def] using hp)]
      simp [show n - 1 + 1 = n from by omega]
    have hdrop2 : (⟨bangRunSrc n, bangRunToks n, ⟨.Bang, ⟨n - 1, n⟩⟩, n, []⟩ :
        Parser).tokens.drop
        (⟨bangRunSrc n, bangRunToks n, ⟨.Bang, ⟨n - 1, n⟩⟩, n, []⟩ : Parser).cursor =
        ([] : List Token) ++ [⟨.True, ⟨n, n + 4⟩⟩] := by
      show (bangRunToks n).drop n = _
      rw [bangRunToks]
      simp
    obtain ⟨pv2, hcan2⟩ := cancelPairs_run .Bang (Or.inr rfl) ⟨.True, ⟨n, n + 4⟩⟩
      (Or.inr rfl) 0 (n + 5)
      ⟨bangRunSrc n, bangRunToks n, ⟨.Bang, ⟨n - 1, n⟩⟩, n, []⟩ []
      (by omega) rfl (by simp) hdrop2
    simp only [Nat.zero_div, Nat.mul_zero, Nat.add_zero] at hcan2
    have hcan2' : cancelPairs (n + 4 + 1)
        (⟨bangRunSrc n, bangRunToks n, ⟨.Bang, ⟨n - 1, n⟩⟩, n, []⟩ : Parser) =
        some ⟨bangRunSrc n, bangRunToks n, pv2, n, []⟩ := hcan2
    have hp2 : (⟨bangRunSrc n, bangRunToks n, pv2, n, []⟩ : Parser).peek =
        some ⟨.True, ⟨n, n + 4⟩⟩ := by
      rw [Parser.peek_def]
      exact runToks_get_n .Bang _ n
    have hnop2 := unary_not_op (n + 4)
      (⟨bangRunSrc n, bangRunToks n, ⟨.Bang, ⟨n - 1, n⟩⟩, n, []⟩ : Parser)
      ⟨bangRunSrc n, bangRunToks n, pv2, n, []⟩
      ⟨.True, ⟨n, n + 4⟩⟩ hcan2' hp2 (by simp) (by simp)
    have hpt2 := primary_true (n + 3) ⟨bangRunSrc n, bangRunToks n, pv2, n, []⟩
      ⟨.True, ⟨n, n + 4⟩⟩ (by simpa [Parser.peek_def] using hp2) rfl
    have hpt2' : primary (n + 3 + 1) (⟨bangRunSrc n, bangRunToks n, pv2, n, []⟩ : Parser) =
        some (.ok ⟨⟨n, n + 4⟩, .Bool true⟩,
          ⟨bangRunSrc n, bangRunToks n, ⟨.True, ⟨n, n + 4⟩⟩, n + 1, []⟩) := hpt2
    have huInner : unary (n + 5)
        ((⟨bangRunSrc n, bangRunToks n, pv, n - 1, []⟩ : Parser).bump) =
        some (.ok ⟨⟨n, n + 4⟩, .Bool true⟩,
          ⟨bangRunSrc n, bangRunToks n, ⟨.True, ⟨n, n + 4⟩⟩, n + 1, []⟩) := by
      rw [hbump]
      show unary (n + 4 + 1) _ = _
      rw [hnop2]
      exact hpt2'
    have happ := unary_applies_op (n + 5)
      (Parser.new (bangRunToks n) (bangRunSrc n))
      ⟨bangRunSrc n, bangRunToks n, pv, n - 1, []⟩
      ⟨.Bang, ⟨n - 1, n⟩⟩ ⟨⟨n, n + 4⟩, .Bool true⟩
      ⟨bangRunSrc n, bangRunToks n, ⟨.True, ⟨n, n + 4⟩⟩, n + 1, []⟩
      hcan' hp (Or.inr rfl) huInner
    simp only [Expression.span] at happ
    have hend : (⟨bangRunSrc n, bangRunToks n, ⟨.True, ⟨n, n + 4⟩⟩, n + 1, []⟩ :
        Parser).peek = none := by
      rw [Parser.peek_def]
      exact runToks_get_past .Bang _ n
    refine ⟨⟨bangRunSrc n, bangRunToks n, ⟨.True, ⟨n, n + 4⟩⟩, n + 1, []⟩, ?_⟩
    rw [if_neg hpar]
    refine parse_of_unary (n + 5) _ _ _ ?_ hend
    rw [happ]
    simp

/-- C6: adjacent identical unary operators cancel in pairs before a single
remaining unary (if any) is applied.  For every `n`, parsing a run of `n`
`-` tokens before the literal `5` (resp. `n` `!` tokens before `true`) yields
the bare literal when `n` is even and exactly one surviving `Unary` node when
`n` is odd; at `n = 2` and `n = 1` these are exactly the filtered token
streams of `"--5"` and `"-5"`. -/
theorem c6_unary_pair_cancellation :
    (∀ n : Nat,
      (∃ p', parse (n + 10) (Parser.new (minusRunToks n) (minusRunSrc n)) =
        some (.ok (if n % 2 = 0 then ⟨⟨n, n + 1⟩, .Number 5⟩
                   else ⟨⟨n, n + 1⟩, .Unary ⟨⟨n, n + 1⟩, .Number 5⟩ .Minus⟩), p')) ∧
      (∃ p', parse (n + 10) (Parser.new (bangRunToks n) (bangRunSrc n)) =
        some (.ok (if n % 2 = 0 then ⟨⟨n, n + 4⟩, .Bool true⟩
                   else ⟨⟨n, n + 4⟩, .Unary ⟨⟨n, n + 4⟩, .Bool true⟩ .Bang⟩), p'))) ∧
    tokensOf "--5" = some (minusRunToks 2) ∧
    tokensOf "-5" = some (minusRunToks 1) ∧
    "--5".toList = minusRunSrc 2 ∧ "-5".toList = minusRunSrc 1 :=
  ⟨fun n => ⟨c6_minus_run n, c6_bang_run n⟩, by decide, by decide, by decide, by decide⟩

end Lox
